import Mathlib

/-!
Verification development for the easy-schema validation engine
(src/shared.js and src/easy-schema-server.js): a shallow embedding of the
schema grammar normalizer (shape), the constraint evaluator (validate),
the dependency rule engine (enforce), the JSON-Schema compiler
(createJSONSchema), the update-operator normalizer (transformModifier)
and the top-level check entry point, together with the Meteor
check/Match pattern-matching semantics and the flatten/unflatten of the flat package that these functions call into.
-/

namespace EasySchema

/-- JS runtime values as they flow through the validator: undefined, null,
booleans, numbers (the schemas and data exercised here use integral numbers,
so numbers are modelled as integers), strings, arrays, plain objects
(ordered key/value lists, mirroring JS object insertion order) and Date
instances (the timestamp itself is irrelevant to validation, so it is
abstracted away). -/
inductive Value where
  | vundef
  | vnull
  | vbool (b : Bool)
  | vnum (n : Int)
  | vstr (s : String)
  | varr (elems : List Value)
  | vobj (fields : List (String × Value))
  | vdate
deriving Repr

mutual

/-- Deep structural equality on JS values (utils.js `isEqual`; also the
Set-membership model for `unique`). -/
def beqV : Value → Value → Bool
  | .vundef, .vundef => true
  | .vnull, .vnull => true
  | .vbool a, .vbool b => a == b
  | .vnum a, .vnum b => a == b
  | .vstr a, .vstr b => a == b
  | .varr a, .varr b => beqListV a b
  | .vobj a, .vobj b => beqFieldsV a b
  | .vdate, .vdate => true
  | _, _ => false

/-- Element-wise `beqV` on arrays. -/
def beqListV : List Value → List Value → Bool
  | [], [] => true
  | a :: as, b :: bs => beqV a b && beqListV as bs
  | _, _ => false

/-- Field-wise `beqV` on objects (order-sensitive, matching the ordered object representation used here). -/
def beqFieldsV : List (String × Value) → List (String × Value) → Bool
  | [], [] => true
  | (k1, v1) :: as, (k2, v2) :: bs => k1 == k2 && beqV v1 v2 && beqFieldsV as bs
  | _, _ => false

end

/-- `typeof v` in JS (arrays, plain objects, Date instances and null are all
"object"). -/
def jsTypeof : Value → String
  | .vundef => "undefined"
  | .vnull => "object"
  | .vbool _ => "boolean"
  | .vnum _ => "number"
  | .vstr _ => "string"
  | .varr _ => "object"
  | .vobj _ => "object"
  | .vdate => "object"

/-- JS truthiness: undefined, null, false, 0 and "" are falsy. -/
def jsTruthy : Value → Bool
  | .vundef => false
  | .vnull => false
  | .vbool b => b
  | .vnum n => n != 0
  | .vstr s => s != ""
  | _ => true

/-- `Array.prototype.join` / template-literal joining, structurally. -/
def intercalateStr (sep : String) : List String → String
  | [] => ""
  | [a] => a
  | a :: rest => a ++ sep ++ intercalateStr sep rest

mutual

/-- JS string coercion as used in template literals and `.toString()`:
numbers print decimally, arrays join their elements with commas. -/
def jsToString : Value → String
  | .vundef => "undefined"
  | .vnull => "null"
  | .vbool b => if b then "true" else "false"
  | .vnum n => toString n
  | .vstr s => s
  | .varr es => intercalateStr "," (jsToStringList es)
  | .vobj _ => "[object Object]"
  | .vdate => "[Date]"

/-- `jsToString` over the elements of an array. -/
def jsToStringList : List Value → List String
  | [] => []
  | v :: vs => jsToString v :: jsToStringList vs

end

/-- Field access `obj[k]` on a JS object: missing keys read as undefined. -/
def Value.get (v : Value) (k : String) : Value :=
  match v with
  | .vobj fields => (fields.lookup k).getD .vundef
  | _ => (.vundef : Value)

/-- `Object.keys` (for plain objects; arrays and strings expose index keys,
whose count is their length; other primitives have none). -/
def jsKeys : Value → List String
  | .vobj fields => fields.map (·.1)
  | .varr es => (List.range es.length).map toString
  | .vstr s => (List.range s.length).map toString
  | _ => []

/-- `x.length` in JS: present on strings and arrays, undefined elsewhere. -/
def jsLength : Value → Value
  | .vstr s => .vnum s.length
  | .varr es => .vnum es.length
  | _ => (.vundef : Value)

/-- JS `<` between a number and an arbitrary value: comparison with anything
non-numeric goes through NaN and is false. -/
def jsLtNum (a : Value) (b : Value) : Bool :=
  match a, b with
  | .vnum x, .vnum y => x < y
  | _, _ => false

/-- JS `<=` between two arbitrary values, as used by the example `where`
predicates (`b <= a`): false whenever either side is not a number. -/
def jsLeV (a : Value) (b : Value) : Bool :=
  match a, b with
  | .vnum x, .vnum y => x ≤ y
  | _, _ => false

end EasySchema

namespace EasySchema

/-- A JS regular expression, abstracted to its test function and its printed
source (only the printed source reaches the JSON-Schema compiler; no claim
exercises matching itself). -/
structure Rgx where
  testFn : String → Bool
  printed : String

/-- A JS `where` predicate. JS functions are opaque runtime values; the
embedding records the two reflective facts the source reads off them —
`fn.length` (declared arity, `shared.js` line 213) and the parameter names
`_getParams` recovers from the transpiled source text (`shared.js` lines
139-147), which cannot be re-parsed inside a shallow embedding and is
therefore carried as data — plus the call behavior itself: `run a b`
models `fn(a, b)` (a one-argument call passes `undefined` for `b`),
returning the result or the thrown value stringified. -/
structure WhereFn where
  arity : Nat
  params : List String
  run : Value → Value → Except String Value

/-- Schema-position values: everything that can appear as a field value in a
user-authored schema or in a shaped pattern. Atoms model the JS type
constructors (String, Number, Boolean, Date, Object, Array), `integer` and
`anyT` the Match.Integer / Match.Any sentinels, `decimalT` the Decimal
constructor. `lit` embeds plain data used as qualifier payloads or literal
patterns; `maybe`/`oneOf` are the Match.Maybe / Match.OneOf wrappers
(shared.js `Optional` and `AnyOf`); `arr` is an array literal; `obj` a plain
nested mapping; `whereC ty conds` is the `Match.Where` closure built by
shared.js `Where({type, ...conditions})`. -/
inductive Pat where
  | str
  | num
  | bool
  | date
  | objT
  | arrT
  | integer
  | anyT
  | decimalT
  | lit (v : Value)
  | re (r : Rgx)
  | fn (w : WhereFn)
  | maybe (p : Pat)
  | oneOf (ps : List Pat)
  | arr (ps : List Pat)
  | obj (fields : List (String × Pat))
  | whereC (ty : Pat) (conds : List (String × Pat))

/-- A dependency rule collected by `shape`: `{path, rule, deps}`
(shared.js lines 227-233). -/
structure DepRule where
  path : List String
  rule : WhereFn
  deps : List String

/-- utils.js is referenced by both source files but is not part of the
provided sources. Modelled from the spec: §3 describes schema descriptions
as "plain nested mapping" values, so `isObject` is the plain-object test
(true exactly for object literals; false for arrays, functions, class
instances such as Match wrappers, and primitives). On `Pat` this holds for
schema mappings and for literal runtime data that is a plain object. -/
def isObjectP : Pat → Bool
  | .obj _ => true
  | .lit (.vobj _) => true
  | _ => false

/-- Modelled from the spec: utils.js `isObject` on runtime values — the
plain-object test (§4.1 uses it to direct min/max counting and `allow`
deep-equality at object-typed values). -/
def isObjectV : Value → Bool
  | .vobj _ => true
  | _ => false

/-- shared.js `isArray`: `Array.isArray(a)` minus the `Integer` and `Any`
sentinels (which Meteor models as arrays). On `Pat`, the JS-array shapes are
array literals and literal data arrays. -/
def isArrayP : Pat → Bool
  | .arr _ => true
  | .lit (.varr _) => true
  | _ => false

/-- Modelled from the spec: utils.js `isEmpty` — an object with no keys
(§4.2 step 3: "if there are no conditions"). -/
def isEmptyFields (fields : List (String × Pat)) : Bool :=
  fields.isEmpty

/-- Modelled from the spec: utils.js `isEqual` — deep structural equality,
§4.1: "membership is tested by deep equality against each allowed value". -/
def isEqualV (a b : Value) : Bool :=
  beqV a b

/-- Modelled from the spec: utils.js `pick` — restrict an object to a key
list (§4.1 additionalProperties: undeclared properties "are stripped from
the candidate"). Keeps the field order of the object, as lodash pick does for present keys. -/
def pickV (fields : List (String × Value)) (keys : List String) :
    List (String × Value) :=
  fields.filter (fun kv => keys.contains kv.1)

/-- `pick` on a shaped schema (easy-schema-server.js line 334 restricts the
schema to the keys of the data). -/
def pickP (fields : List (String × Pat)) (keys : List String) :
    List (String × Pat) :=
  fields.filter (fun kv => keys.contains kv.1)

/-- Structural prefix test on character lists. -/
def startsWithL : List Char → List Char → Bool
  | [], _ => true
  | _ :: _, [] => false
  | a :: as, b :: bs => a == b && startsWithL as bs

/-- Structural substring search (`s.includes(sub)`). -/
def hasSubL (needle : List Char) : List Char → Bool
  | [] => needle.isEmpty
  | c :: cs => startsWithL needle (c :: cs) || hasSubL needle cs

/-- `s.split(sep)` for a nonempty separator, structurally on a fuel bound
(the fuel is the list length, enough since every step consumes a
character). -/
def splitOnFuel (sep : List Char) : Nat → List Char → List Char → List (List Char)
  | 0, acc, l => [acc.reverse ++ l]
  | _ + 1, acc, [] => [acc.reverse]
  | fuel + 1, acc, c :: cs =>
      if startsWithL sep (c :: cs) then
        acc.reverse :: splitOnFuel sep fuel [] ((c :: cs).drop sep.length)
      else splitOnFuel sep fuel (c :: acc) cs

/-- JS `s.split(sep)`: every non-overlapping occurrence splits, left to
right, keeping empty pieces. -/
def splitOnStr (s sep : String) : List String :=
  if sep.data.isEmpty then [s]
  else (splitOnFuel sep.data s.data.length [] s.data).map String.mk

/-- Replace every occurrence of a nonempty pattern, structurally on fuel. -/
def replaceFuel (pat rep : List Char) : Nat → List Char → List Char
  | 0, l => l
  | _ + 1, [] => []
  | fuel + 1, c :: cs =>
      if startsWithL pat (c :: cs) then
        rep ++ replaceFuel pat rep fuel ((c :: cs).drop pat.length)
      else c :: replaceFuel pat rep fuel cs

/-- JS global string replacement (every occurrence). -/
def replaceStr (s pat rep : String) : String :=
  if pat.data.isEmpty then s
  else String.mk (replaceFuel pat.data rep.data s.data.length s.data)

/-- JS `s.trim()`. -/
def trimStr (s : String) : String :=
  String.mk (((s.data.dropWhile Char.isWhitespace).reverse.dropWhile Char.isWhitespace).reverse)

/-- JS `s.toLowerCase()` (over the ASCII names arising here). -/
def toLowerStr (s : String) : String :=
  String.mk (s.data.map Char.toLower)

/-- Digits-to-Nat (callers guard that every character is a digit). -/
def toNatStr (s : String) : Nat :=
  s.data.foldl (fun n c => n * 10 + (c.toNat - 48)) 0

/-- Modelled from the spec: utils.js `capitalize` — §7: "first letter
capitalized". -/
def capitalize (s : String) : String :=
  match s.data with
  | [] => ""
  | c :: cs => String.mk (c.toUpper :: cs)

/-- The camel-case humanization step of check (easy-schema-server.js line
346): a space is inserted before every uppercase letter. -/
def spaceCamel (s : String) : String :=
  String.mk (s.data.flatMap (fun c => if c.isUpper then [' ', c] else [c]))

/-- `s.includes(sub)` for strings: substring containment. -/
def jsContains (s sub : String) : Bool :=
  hasSubL sub.data s.data

/-- shared.js `hasOperators`: some key of the object contains a `$`. -/
def hasOperators (data : Value) : Bool :=
  (jsKeys data).any (fun k => jsContains k "$")

end EasySchema

namespace EasySchema

/-- A Match error record as meteor check passes it around: a message and a
dotted field path. The thrown Match.Error carries the composed message
(prefixed with "Match error: " and suffixed with the field path). -/
structure MErr where
  message : String
  path : String
deriving Repr, DecidableEq

/-- Meteor prepends numeric path segments as bracketed indices and joins
segments with dots (identifier-shaped keys, the only ones arising here,
are kept verbatim). -/
def prependPath (key : String) (base : String) : String :=
  let k := if key ≠ "" ∧ key.data.all Char.isDigit then "[" ++ key ++ "]" else key
  if base = "" then k
  else if startsWithL [ Char.ofNat 91] base.data then k ++ base
  else k ++ "." ++ base

/-- The single-quote character, used in Missing key messages. -/
def sq : String := String.mk [Char.ofNat 39]

/-- The message of the Match.Error that meteor check throws for a failed
testSubtree result: "Match error: " plus the message, plus
" in field path" when the path is nonempty. -/
def thrownMsg (e : MErr) : String :=
  "Match error: " ++ e.message ++ (if e.path = "" then "" else " in field " ++ e.path)

/-- The thrown Match.Error for a testSubtree failure, as an MErr whose
message is the composed full message. -/
def mkThrown (e : MErr) : MErr :=
  { message := thrownMsg e, path := e.path }

mutual

/-- Weight of a value (termination measure component). -/
def vW : Value → Nat
  | .varr es => 1 + vlW es
  | .vobj fs => 1 + vfW fs
  | _ => 1

/-- Weight of a value list. -/
def vlW : List Value → Nat
  | [] => 0
  | v :: vs => 1 + vW v + vlW vs

/-- Weight of object fields. -/
def vfW : List (String × Value) → Nat
  | [] => 0
  | (_, v) :: fs => 1 + vW v + vfW fs

end

mutual

/-- Weight of a pattern (termination measure component); literal payloads
count eight times their value weight so that viewing a literal object or
array as a pattern strictly decreases the measure. -/
def pW : Pat → Nat
  | .lit v => 8 * vW v
  | .maybe p => 1 + pW p
  | .oneOf ps => 1 + plW ps
  | .arr ps => 1 + plW ps
  | .obj fs => 1 + pfW fs
  | .whereC ty conds => 1 + pW ty + pfW conds
  | _ => 1

/-- Weight of a pattern list. -/
def plW : List Pat → Nat
  | [] => 0
  | p :: ps => 1 + pW p + plW ps

/-- Weight of pattern fields. -/
def pfW : List (String × Pat) → Nat
  | [] => 0
  | (_, p) :: fs => 1 + pW p + pfW fs

end

theorem vW_pos (v : Value) : 1 ≤ vW v := by
  cases v <;> simp [vW]

theorem pW_pos (p : Pat) : 1 ≤ pW p := by
  cases p
  all_goals simp [pW]
  all_goals try omega
  all_goals rename_i v
  all_goals have := vW_pos v
  all_goals omega

theorem vW_mem_lt {v : Value} {vs : List Value} (h : v ∈ vs) : vW v < vlW vs := by
  induction vs with
  | nil => cases h
  | cons a as ih =>
      rcases List.mem_cons.mp h with rfl | h
      · simp [vlW]; omega
      · have := ih h; simp [vlW]; omega

theorem vW_lookup_lt {fs : List (String × Value)} {k : String} {v : Value}
    (h : fs.lookup k = some v) : vW v < vfW fs := by
  induction fs with
  | nil => simp [List.lookup] at h
  | cons a as ih =>
      obtain ⟨k1, v1⟩ := a
      simp only [List.lookup] at h
      split at h
      · injection h with h
        subst h; simp [vfW]; omega
      · have := ih h; simp [vfW]; omega

theorem pW_lookup_lt {fs : List (String × Pat)} {k : String} {p : Pat}
    (h : fs.lookup k = some p) : pW p < pfW fs := by
  induction fs with
  | nil => simp [List.lookup] at h
  | cons a as ih =>
      obtain ⟨k1, p1⟩ := a
      simp only [List.lookup] at h
      split at h
      · injection h with h
        subst h; simp [pfW]; omega
      · have := ih h; simp [pfW]; omega

theorem pfW_filter_le (q : String × Pat → Bool) (fs : List (String × Pat)) :
    pfW (fs.filter q) ≤ pfW fs := by
  induction fs with
  | nil => simp [pfW]
  | cons a as ih =>
      obtain ⟨k1, p1⟩ := a
      by_cases hq : q (k1, p1) <;> simp [List.filter, hq, pfW] <;> omega

/-- Splitting off one key: the looked-up pattern plus the remaining fields
weigh strictly less than the whole field list. -/
theorem pW_split_lt {fs : List (String × Pat)} {k : String} {p : Pat}
    (h : fs.lookup k = some p) :
    pW p + pfW (fs.filter (fun kv => kv.1 != k)) < pfW fs := by
  induction fs with
  | nil => simp [List.lookup] at h
  | cons a as ih =>
      obtain ⟨k1, p1⟩ := a
      simp only [List.lookup] at h
      split at h
      · injection h with h
        subst h
        rename_i heq
        have hk : k = k1 := by
          have := eq_of_beq heq
          exact this
        subst hk
        have hfil := pfW_filter_le (fun kv => kv.1 != k) as
        simp [List.filter, pfW]
        omega
      · have hlt := ih h
        rename_i heq
        have hk : (k1 != k) = true := by
          simp only [bne_iff_ne]
          intro hc
          subst hc
          simp at heq
        simp [List.filter, hk, pfW]
        omega


/-- The "got X" part of meteor typeof-check messages: the typeof of the
value, except that null prints as "null". -/
def gotTypeof : Value → String
  | .vnull => "null"
  | v => jsTypeof v

mutual

/-- JSON.stringify / EJSON.stringify as used in error messages. -/
def jsonStringify : Value → String
  | .vundef => "undefined"
  | .vnull => "null"
  | .vbool b => if b then "true" else "false"
  | .vnum n => toString n
  | .vstr s => "\"" ++ s ++ "\""
  | .varr es => "[" ++ intercalateStr "," (jsonStringifyList es) ++ "]"
  | .vobj fs => "\x7b" ++ intercalateStr "," (jsonStringifyFields fs) ++ "\x7d"
  | .vdate => "\"1970-01-01T00:00:00.000Z\""

/-- `jsonStringify` over array elements. -/
def jsonStringifyList : List Value → List String
  | [] => []
  | v :: vs => jsonStringify v :: jsonStringifyList vs

/-- `jsonStringify` over object fields. -/
def jsonStringifyFields : List (String × Value) → List String
  | [] => []
  | (k, v) :: fs => ("\"" ++ k ++ "\":" ++ jsonStringify v) :: jsonStringifyFields fs

end

/-- JS strict equality (===, SameValueZero flavor as used by
Array.prototype.includes): value equality on primitives; reference
equality on objects, arrays and dates, which distinct literals never
satisfy. -/
def strictEqV (a b : Value) : Bool :=
  match a, b with
  | .varr _, _ => false
  | .vobj _, _ => false
  | .vdate, _ => false
  | _, .varr _ => false
  | _, .vobj _ => false
  | _, .vdate => false
  | a, b => beqV a b

/-- A `.toString()` method call: throws a TypeError on null or undefined. -/
def toStringMethod (v : Value) : Except String String :=
  match v with
  | .vnull => .error "TypeError: Cannot read properties of null (reading toString)"
  | .vundef => .error "TypeError: Cannot read properties of undefined (reading toString)"
  | v => .ok (jsToString v)

/-- The number of distinct elements (`new Set(x).size`), with deep value
equality standing in for the SameValueZero of a JS Set (distinct scalar
literals compare the same way; object identity is not observable here). -/
def dedupLen (es : List Value) : Nat :=
  (es.foldl (fun acc v => if acc.any (fun a => beqV a v) then acc else acc ++ [v]) []).length

/-- Is the value a JS array. -/
def isVArrV : Value → Bool
  | .varr _ => true
  | _ => false

/-- The truthiness of a schema-position value: literal data by JS
truthiness; constructors, wrappers, functions and regexes are objects and
therefore truthy. -/
def patTruthy : Pat → Bool
  | .lit v => jsTruthy v
  | _ => true

/-- Truthiness of an optional qualifier payload (absent reads as
undefined, hence falsy). -/
def optPatTruthy : Option Pat → Bool
  | some p => patTruthy p
  | none => false

/-- The runtime value of a schema-position entry, where one exists:
literal payloads are themselves; wrappers, constructors, functions and
regexes have no data counterpart and read as undefined in the contexts
that use this (qualifier destructuring into the where call). -/
def patToValue : Pat → Value
  | .lit v => v
  | _ => (.vundef : Value)

/-- Lift object fields of runtime data into schema position (each value
becomes a literal pattern). -/
def litMapFields (fs : List (String × Value)) : List (String × Pat) :=
  fs.map (fun kv => (kv.1, Pat.lit kv.2))

/-- `Object.entries` / `Object.keys` view of a pattern: the fields of a
plain mapping, whether written as a schema mapping or appearing as literal
runtime data. Constructors, wrappers and arrays have no enumerable fields
here. -/
def patFields : Pat → List (String × Pat)
  | .obj fs => fs
  | .lit (.vobj fs) => litMapFields fs
  | _ => []

/-- The `type` property of a pattern (duck-typing check of validate). -/
def typeOf? (p : Pat) : Option Pat :=
  (patFields p).lookup "type"

/-- The rest-destructuring that splits off the `type` key: all fields
other than `type`. -/
def condsOf (p : Pat) : List (String × Pat) :=
  (patFields p).filter (fun kv => kv.1 != "type")

/-- The `[0]` property of a pattern (array head, or the "0" field of a
mapping). -/
def patIndex0 : Pat → Option Pat
  | .arr ps => ps.head?
  | .obj fs => fs.lookup "0"
  | .lit (.varr es) => es.head?.map .lit
  | .lit (.vobj fs) => (fs.lookup "0").map .lit
  | _ => none

/-- The `[i]` property of a pattern. -/
def patIndex (p : Pat) (i : Nat) : Option Pat :=
  match p with
  | .arr ps => ps[i]?
  | .obj fs => fs.lookup (toString i)
  | .lit (.varr es) => (es[i]?).map .lit
  | .lit (.vobj fs) => (fs.lookup (toString i)).map .lit
  | _ => none

/-- `Object.keys(type)`. -/
def patKeysOf (p : Pat) : List String :=
  (patFields p).map (·.1)

/-- utils.js pick applied to a runtime value (non-objects pick to an
empty object). -/
def pickVal (x : Value) (keys : List String) : Value :=
  match x with
  | .vobj fs => .vobj (pickV fs keys)
  | _ => .vobj []

/-- The object fields of a runtime value (empty for non-objects; JS
Object.entries also enumerates array indices, a case the embedded-object
branch of validate never meets for shaped schemas and which is modelled
as empty). -/
def objFieldsV : Value → List (String × Value)
  | .vobj fs => fs
  | _ => []

/-- The `.name` property of a schema-position value (constructor names;
everything else reads undefined). -/
def patJsName : Pat → Option String
  | .str => some "String"
  | .num => some "Number"
  | .bool => some "Boolean"
  | .date => some "Date"
  | .objT => some "Object"
  | .arrT => some "Array"
  | .decimalT => some "Decimal"
  | _ => none

/-- `t === String`. -/
def tyIsStr : Pat → Bool
  | .str => true
  | _ => false

/-- validate local helper `isAnObject`: a plain object or the Object
constructor itself. -/
def isAnObjectT (t : Pat) : Bool :=
  isObjectP t || (match t with | .objT => true | _ => false)

/-- validate local helper `isAnArray`: a JS array or the Array
constructor itself. -/
def isAnArrayT (t : Pat) : Bool :=
  isArrayP t || (match t with | .arrT => true | _ => false)

/-- Whether a shaped field is Maybe-wrapped (Optional in shared.js). -/
def isMaybeP : Pat → Bool
  | .maybe _ => true
  | _ => false

theorem vfW_filter_le (q : String × Value → Bool) (fs : List (String × Value)) :
    vfW (fs.filter q) ≤ vfW fs := by
  induction fs with
  | nil => simp [vfW]
  | cons a as ih =>
      obtain ⟨k1, v1⟩ := a
      by_cases hq : q (k1, v1) <;> simp [List.filter, hq, vfW] <;> omega

theorem vW_pick_le (x : Value) (keys : List String) : vW (pickVal x keys) ≤ vW x := by
  cases x
  case vobj fs =>
      have h := vfW_filter_le (fun kv => keys.contains kv.1) fs
      simp only [pickVal, pickV, vW]
      omega
  all_goals simp [pickVal, vW, vfW]

theorem pfW_litMapFields_le (fs : List (String × Value)) :
    pfW (litMapFields fs) ≤ 8 * vfW fs := by
  induction fs with
  | nil => simp [litMapFields, pfW, vfW]
  | cons a as ih =>
      obtain ⟨k1, v1⟩ := a
      simp [litMapFields, pfW, vfW, pW] at ih ⊢
      have := vW_pos v1
      omega

theorem pW_patFields_lt (p : Pat) : pfW (patFields p) < pW p := by
  cases p
  case obj fs => simp [patFields, pW]
  case lit v =>
      cases v
      case vobj fs =>
          have := pfW_litMapFields_le fs
          simp only [patFields, pW, vW]
          omega
      all_goals simp [patFields, pfW, pW, vW, vlW]
  all_goals simp [patFields, pfW]
  all_goals exact pW_pos _

theorem typeOf_pW {p t : Pat} (h : typeOf? p = some t) : pW t + 2 ≤ pW p := by
  have h1 := pW_lookup_lt h
  have h2 := pW_patFields_lt p
  omega

theorem pW_head_lt {q : Pat} {ps : List Pat} (h : ps.head? = some q) : pW q < plW ps := by
  cases ps with
  | nil => simp at h
  | cons a as =>
      simp at h
      subst h
      simp [plW]
      omega

theorem patIndex0_pW {p q : Pat} (h : patIndex0 p = some q) : pW q + 2 ≤ pW p := by
  cases p
  case arr ps =>
      simp only [patIndex0] at h
      have h2 := pW_head_lt h
      simp only [pW]
      omega
  case obj fs =>
      simp only [patIndex0] at h
      have h2 := pW_lookup_lt h
      simp only [pW]
      omega
  case lit v =>
      cases v
      case varr es =>
          cases es with
          | nil => simp [patIndex0] at h
          | cons e es2 =>
              simp [patIndex0] at h
              subst h
              simp [pW, vW, vlW]
              have := vW_pos e
              omega
      case vobj fs =>
          cases hv : fs.lookup "0" with
          | none => simp [patIndex0, hv] at h
          | some v1 =>
              simp [patIndex0, hv] at h
              subst h
              have h2 := vW_lookup_lt hv
              simp [pW, vW]
              omega
      all_goals simp [patIndex0] at h
  all_goals simp [patIndex0] at h

/-- The first required key of a literal object pattern missing from the
data (runtime data values are never Optional wrappers, so every key is
required). -/
def findMissingV (fs : List (String × Value)) (dataKeys : List String) : Option MErr :=
  match fs.find? (fun kv => !dataKeys.contains kv.1) with
  | some kv => some ⟨"Missing key " ++ sq ++ kv.1 ++ sq, ""⟩
  | none => none

mutual

/-- Meteor testSubtree when the pattern is a runtime data value: literal
scalars match by strict equality, a one-element array literal matches
arrays element-wise, a plain object literal acts as an object pattern whose
sub-patterns are its own values. (A Date instance in pattern position falls
into the generic typeof-object branch and behaves as a field-less object
pattern.) -/
def litMatch (pv : Value) (v : Value) : Except String (Option MErr) :=
  match pv with
  | .vundef => .ok (match v with
      | .vundef => none
      | w => some ⟨"Expected undefined, got " ++ gotTypeof w, ""⟩)
  | .vnull => .ok (match v with
      | .vnull => none
      | w => some ⟨"Expected null, got " ++ jsonStringify w, ""⟩)
  | .vbool b => .ok (if strictEqV (.vbool b) v then none
      else some ⟨"Expected " ++ jsToString (.vbool b) ++ ", got " ++ jsonStringify v, ""⟩)
  | .vnum n => .ok (if strictEqV (.vnum n) v then none
      else some ⟨"Expected " ++ jsToString (.vnum n) ++ ", got " ++ jsonStringify v, ""⟩)
  | .vstr st => .ok (if strictEqV (.vstr st) v then none
      else some ⟨"Expected " ++ st ++ ", got " ++ jsonStringify v, ""⟩)
  | .vdate => .ok (match v with
      | .vobj [] => none
      | .vobj ((k, _) :: _) => some ⟨"Unknown key", prependPath k ""⟩
      | .vnull => some ⟨"Expected object, got null", ""⟩
      | .varr _ => some ⟨"Expected plain object", ""⟩
      | .vdate => some ⟨"Expected plain object", ""⟩
      | w => some ⟨"Expected object, got " ++ jsTypeof w, ""⟩)
  | .varr es =>
      match es with
      | [pe] =>
          match v with
          | .varr vs => litMatchArr pe 0 vs
          | w => .ok (some ⟨"Expected array, got " ++ jsonStringify w, ""⟩)
      | _ => .error "Bad pattern: arrays must have one type element"
  | .vobj fs =>
      match v with
      | .vobj dfs => litMatchObj fs dfs (dfs.map (·.1))
      | .vnull => .ok (some ⟨"Expected object, got null", ""⟩)
      | .varr _ => .ok (some ⟨"Expected plain object", ""⟩)
      | .vdate => .ok (some ⟨"Expected plain object", ""⟩)
      | w => .ok (some ⟨"Expected object, got " ++ jsTypeof w, ""⟩)
termination_by (vW pv, 0)
decreasing_by
  all_goals simp_wf
  all_goals apply Prod.Lex.left
  all_goals simp only [vW, vlW, vfW]
  all_goals omega

/-- Array elements against a literal element pattern, with indexed paths. -/
def litMatchArr (pe : Value) (i : Nat) (vs : List Value) : Except String (Option MErr) :=
  match vs with
  | [] => .ok none
  | v :: rest =>
      match litMatch pe v with
      | .error e => .error e
      | .ok (some err) => .ok (some ⟨err.message, prependPath (toString i) err.path⟩)
      | .ok none => litMatchArr pe (i + 1) rest
termination_by (vW pe + 1, vlW vs)
decreasing_by
  all_goals simp_wf
  all_goals first
    | (apply Prod.Lex.right; simp only [vlW]; omega)
    | (apply Prod.Lex.left; omega)

/-- Data fields against a literal object pattern: present keys are checked
against the corresponding literal sub-pattern, unknown keys fail, and after
the loop the first missing key fails. -/
def litMatchObj (fs : List (String × Value)) (dfs : List (String × Value))
    (allKeys : List String) : Except String (Option MErr) :=
  match dfs with
  | [] => .ok (findMissingV fs allKeys)
  | (k, v) :: rest =>
      match hlk : fs.lookup k with
      | some pv =>
          match litMatch pv v with
          | .error e => .error e
          | .ok (some err) => .ok (some ⟨err.message, prependPath k err.path⟩)
          | .ok none => litMatchObj fs rest allKeys
      | none => .ok (some ⟨"Unknown key", prependPath k ""⟩)
termination_by (vfW fs, vfW dfs)
decreasing_by
  all_goals simp_wf
  · apply Prod.Lex.left
    have := vW_lookup_lt hlk
    omega
  · apply Prod.Lex.right
    simp only [vfW]
    omega

end

/-- The `[rule, customMessage]` destructuring of a qualifier payload
(`Array.isArray(min) ? min : [min]`): an array payload splits into its
first two entries, anything else is the rule with no custom message. -/
def pairOf (payload : Option Pat) : Value × Value :=
  match payload with
  | some (.lit (.varr es)) => (es.getD 0 .vundef, es.getD 1 .vundef)
  | some (.arr ps) => (patToValue (ps.getD 0 (.lit .vundef)), patToValue (ps.getD 1 (.lit .vundef)))
  | some p => (patToValue p, .vundef)
  | none => (.vundef, .vundef)

/-- JS `>` between values (NaN comparisons are false). -/
def jsGtNum (a : Value) (b : Value) : Bool :=
  match a, b with
  | .vnum x, .vnum y => x > y
  | _, _ => false

/-- The qualifier part of shared.js validate (lines 88-130): evaluates
`where`, `min`/`max`, `allow`, `regex` and `unique` against the value and
returns the pushed error strings in source order. `where` is called inside
its own try/catch so a raised error becomes a pushed "w: ..." string; the
later qualifier blocks can raise TypeErrors (calling array methods on
non-arrays and so on), which escape validate, hence the Except layer. -/
def evalQualifiers (x : Value) (ty : Pat) (conds : List (String × Pat)) :
    Except String (List String) := do
  let minP := conds.lookup "min"
  let maxP := conds.lookup "max"
  let regexP := conds.lookup "regex"
  let allowP := conds.lookup "allow"
  let uniqueP := conds.lookup "unique"
  let whereP := conds.lookup "where"
  let qualVal : Option Pat → Value := fun o =>
    match o with
    | some p => patToValue p
    | none => .vundef
  let whereErrs : List String :=
    match whereP with
    | some p =>
        if patTruthy p then
          match p with
          | .fn w =>
              match w.run x (.vobj [("min", qualVal minP), ("max", qualVal maxP),
                  ("regex", qualVal regexP), ("allow", qualVal allowP),
                  ("unique", qualVal uniqueP)]) with
              | .ok _ => []
              | .error m => ["w: " ++ m]
          | _ => ["w: TypeError: where is not a function"]
        else []
    | none => []
  let isAnObj := isAnObjectT ty
  let isAnArr := isAnArrayT ty
  let count : Value :=
    if isAnObj then .vnum (jsKeys x).length
    else if tyIsStr ty || isAnArr then jsLength x
    else x
  let term : String :=
    if isAnObj then "properties"
    else if tyIsStr ty then "characters"
    else if isAnArr then "items"
    else ""
  let mmErrs : List String :=
    if optPatTruthy minP || optPatTruthy maxP then
      let (mn, mnErr) := pairOf minP
      let (mx, mxErr) := pairOf maxP
      let minFail := jsTruthy mn && jsLtNum count mn
      if minFail || (jsTruthy mx && jsGtNum count mx) then
        [if minFail && jsTruthy mnErr then "w: " ++ jsToString mnErr
         else if jsTruthy mxErr then "w: " ++ jsToString mxErr
         else if jsLtNum count (.vnum 1) then "cannot be empty"
         else "must be "
           ++ (if optPatTruthy minP then "at least " ++ jsToString (qualVal minP) ++ " " ++ term else "")
           ++ (if optPatTruthy minP && jsTruthy mx then " and " else "")
           ++ (if optPatTruthy maxP then "at most " ++ jsToString mx ++ " " ++ term else "")]
      else []
    else []
  let allowErrs : List String ←
    if optPatTruthy allowP then do
      let es : List Value ←
        match allowP with
        | some (.lit (.varr es)) => Except.ok es
        | some (.arr ps) => Except.ok (ps.map patToValue)
        | _ => Except.error "TypeError: allow.some is not a function"
      let lastStr : Option String :=
        match es.getLast? with
        | some (.vstr st) => some st
        | _ => none
      let alwErr : Option String := if es.any isVArrV then lastStr else none
      let alwV : Value := if alwErr.isSome then es.headD .vundef else .varr es
      let pass : Bool ←
        if isAnObj || isAnArr then
          match alwV with
          | .varr l => Except.ok (l.any (fun a => isEqualV a x))
          | _ => Except.error "TypeError: alw.some is not a function"
        else do
          let inc : Bool ←
            match alwV with
            | .varr l => Except.ok (l.any (fun a => strictEqV a x))
            | .vstr st => Except.ok (jsContains st (jsToString x))
            | _ => Except.error "TypeError: alw.includes is not a function"
          if inc then Except.ok true
          else
            match alwV with
            | .varr l => do
                let strs ← l.mapM toStringMethod
                let xs ← toStringMethod x
                Except.ok (strs.contains xs)
            | _ => Except.error "TypeError: alw.map is not a function"
      if pass then Except.ok []
      else Except.ok [match alwErr with
        | some m => "w: " ++ m
        | none => "must have an allowed value, not " ++ jsonStringify x]
    else Except.ok []
  let regexErrs : List String ←
    if optPatTruthy regexP then
      let rp : Pat :=
        match regexP with
        | some (.arr ps) => ps.getD 0 (.lit .vundef)
        | some (.lit (.varr es)) => .lit (es.getD 0 .vundef)
        | some p => p
        | none => .lit .vundef
      let rErrV : Value :=
        match regexP with
        | some (.arr ps) => patToValue (ps.getD 1 (.lit .vundef))
        | some (.lit (.varr es)) => es.getD 1 .vundef
        | _ => .vundef
      match rp with
      | .re r =>
          Except.ok (if r.testFn (jsToString x) then []
            else [if jsTruthy rErrV then "w: " ++ jsToString rErrV
                  else "must match regex " ++ r.printed])
      | _ => Except.error "TypeError: r.test is not a function"
    else Except.ok []
  let uniqueErrs : List String ←
    if optPatTruthy uniqueP then
      let (_, uErr) := pairOf uniqueP
      let msg : String :=
        if jsTruthy uErr then "w: " ++ jsToString uErr else "must have unique items"
      match x with
      | .varr es => Except.ok (if dedupLen es ≠ es.length then [msg] else [])
      | .vstr st =>
          Except.ok (if dedupLen (st.data.map (fun c => Value.vstr (String.mk [c]))) ≠ st.length
            then [msg] else [])
      | _ => Except.error "TypeError: x is not iterable"
    else Except.ok []
  return whereErrs ++ mmErrs ++ allowErrs ++ regexErrs ++ uniqueErrs

/-- A `c(...)` call inside a try/catch that pushes whatever it raises as an
error entry: a Match.Error stringifies as Error plus its composed message,
any other exception as its own text. -/
def cPush (r : Except String (Option MErr)) : List String :=
  match r with
  | .error e => [e]
  | .ok (some err) => ["Error: " ++ thrownMsg err]
  | .ok none => []

/-- The first non-optional pattern key missing from the data, in pattern
order (meteor object-pattern missing-key reporting). -/
def findMissing (pfs : List (String × Pat)) (dataKeys : List String) : Option MErr :=
  match pfs.find? (fun kv => !isMaybeP kv.2 && !dataKeys.contains kv.1) with
  | some kv => some ⟨"Missing key " ++ sq ++ kv.1 ++ sq, ""⟩
  | none => none

theorem vfW_objFields_lt (x : Value) : vfW (objFieldsV x) < vW x := by
  cases x <;> simp [objFieldsV, vfW, vW] <;> omega

/-- Is the value undefined or null (the two values Match.Maybe accepts
besides its inner pattern). -/
def isNullish : Value → Bool
  | .vundef => true
  | .vnull => true
  | _ => false

/-- The duck-typing test of validate line 33-34: the type is a plain
mapping whose first value carries a truthy `type` property. -/
def cond1OfTy (ty : Pat) : Bool :=
  match (patFields ty).head? with
  | some kv => patTruthy kv.2 && (match typeOf? kv.2 with
      | some t => patTruthy t
      | none => false)
  | none => false

/-- The test of validate line 46: `type[0] && type[0].type`. -/
def cond2OfTy (ty : Pat) : Bool :=
  match patIndex0 ty with
  | some p0 => patTruthy p0 && (match typeOf? p0 with
      | some t => patTruthy t
      | none => false)
  | none => false

/-- The test of validate line 56: `isArray(type) && isArray(type[0])`. -/
def cond3OfTy (ty : Pat) : Bool :=
  isArrayP ty && (match patIndex0 ty with
  | some q => isArrayP q
  | none => false)

/-- The inner `validate` call of the array-of-arrays branch when a data
element itself carries a `type` property (shared.js line 65): the type
descriptor here is runtime data, so the structural check goes through the
literal matcher and the qualifier payloads are the remaining data fields.
(A data-supplied descriptor that again nests descriptors would re-enter
the duck-typed dispatch in JS; that pathological nesting is modelled by
the literal matcher directly.) -/
def validateLit (x : Value) (tyv : Value) (condsV : List (String × Value)) :
    Except String (Option MErr) :=
  let serrs := cPush (litMatch tyv x)
  match evalQualifiers x (.lit tyv) (litMapFields condsV) with
  | .error e => .error e
  | .ok qerrs =>
      let errs := serrs ++ qerrs
      if errs.isEmpty then .ok none
      else .ok (some ⟨"Match error: " ++ intercalateStr " and " errs, ""⟩)

mutual

/-- Meteor testSubtree: the pattern-matching core of meteor check. Returns
none on success, an MErr on mismatch, and propagates genuine JS exceptions
(bad patterns, rethrown non-Match errors) in the Except layer. -/
def testSubtree (v : Value) (p : Pat) : Except String (Option MErr) :=
  match p with
  | .anyT => .ok none
  | .str => .ok (match v with
      | .vstr _ => none
      | w => some ⟨"Expected string, got " ++ gotTypeof w, ""⟩)
  | .num => .ok (match v with
      | .vnum _ => none
      | w => some ⟨"Expected number, got " ++ gotTypeof w, ""⟩)
  | .bool => .ok (match v with
      | .vbool _ => none
      | w => some ⟨"Expected boolean, got " ++ gotTypeof w, ""⟩)
  | .integer => .ok (match v with
      | .vnum n =>
          if -2147483648 ≤ n ∧ n ≤ 2147483647 then none
          else some ⟨"Expected Integer, got " ++ jsonStringify (.vnum n), ""⟩
      | w => some ⟨"Expected Integer, got " ++ jsonStringify w, ""⟩)
  | .date => .ok (match v with
      | .vdate => none
      | _ => some ⟨"Expected Date", ""⟩)
  | .decimalT => .ok (some ⟨"Expected Decimal", ""⟩)
  | .objT => .ok (match v with
      | .vobj _ => none
      | .varr _ => none
      | .vdate => none
      | _ => some ⟨"Expected Object", ""⟩)
  | .arrT => .ok (match v with
      | .varr _ => none
      | _ => some ⟨"Expected Array", ""⟩)
  | .fn _ => .ok (some ⟨"Expected particular constructor", ""⟩)
  | .re _ => .ok (match v with
      | .vobj [] => none
      | .vobj ((k, _) :: _) => some ⟨"Unknown key", prependPath k ""⟩
      | .vnull => some ⟨"Expected object, got null", ""⟩
      | .varr _ => some ⟨"Expected plain object", ""⟩
      | .vdate => some ⟨"Expected plain object", ""⟩
      | w => some ⟨"Expected object, got " ++ jsTypeof w, ""⟩)
  | .lit lv => litMatch lv v
  | .maybe q =>
      if isNullish v then .ok none else testSubtree v q
  | .oneOf ps => testOneOf v ps
  | .arr ps =>
      match ps with
      | [q] =>
          match v with
          | .varr vs => testArrElems vs 0 q
          | w => .ok (some ⟨"Expected array, got " ++ jsonStringify w, ""⟩)
      | _ => .error "Bad pattern: arrays must have one type element"
  | .obj pfs =>
      match v with
      | .vobj dfs => testObjData dfs pfs (dfs.map (·.1))
      | .vnull => .ok (some ⟨"Expected object, got null", ""⟩)
      | .varr _ => .ok (some ⟨"Expected plain object", ""⟩)
      | .vdate => .ok (some ⟨"Expected plain object", ""⟩)
      | w => .ok (some ⟨"Expected object, got " ++ jsTypeof w, ""⟩)
  | .whereC ty conds => validate v ty conds
termination_by (vW v, 4 * pW p)
decreasing_by
  all_goals try simp_wf
  all_goals try (apply Prod.Lex.right; try simp only [pW, plW, pfW]; omega)
  all_goals try (apply Prod.Lex.left; try simp only [vW, vlW, vfW]; omega)

/-- Match.OneOf: the value must match one of the choices. -/
def testOneOf (v : Value) (ps : List Pat) : Except String (Option MErr) :=
  match ps with
  | [] => .ok (some ⟨"Failed Match.OneOf, Match.Maybe or Match.Optional validation", ""⟩)
  | q :: rest =>
      match testSubtree v q with
      | .error e => .error e
      | .ok none => .ok none
      | .ok (some _) => testOneOf v rest
termination_by (vW v, 4 * plW ps + 1)
decreasing_by
  all_goals try simp_wf
  all_goals apply Prod.Lex.right
  all_goals simp only [plW]
  all_goals omega

/-- Array-pattern elements, with indexed error paths. -/
def testArrElems (vs : List Value) (i : Nat) (q : Pat) : Except String (Option MErr) :=
  match vs with
  | [] => .ok none
  | v :: rest =>
      match testSubtree v q with
      | .error e => .error e
      | .ok (some err) => .ok (some ⟨err.message, prependPath (toString i) err.path⟩)
      | .ok none => testArrElems rest (i + 1) q
termination_by (vlW vs, 0)
decreasing_by
  all_goals try simp_wf
  all_goals apply Prod.Lex.left
  all_goals simp only [vlW]
  all_goals omega

/-- Object-pattern matching: present data keys against their declared
sub-patterns (unknown keys fail), then the first missing non-optional key. -/
def testObjData (dfs : List (String × Value)) (pfs : List (String × Pat))
    (allKeys : List String) : Except String (Option MErr) :=
  match dfs with
  | [] => .ok (findMissing pfs allKeys)
  | (k, v) :: rest =>
      match pfs.lookup k with
      | some sp =>
          match testSubtree v sp with
          | .error e => .error e
          | .ok (some err) => .ok (some ⟨err.message, prependPath k err.path⟩)
          | .ok none => testObjData rest pfs allKeys
      | none => .ok (some ⟨"Unknown key", prependPath k ""⟩)
termination_by (vfW dfs, 0)
decreasing_by
  all_goals try simp_wf
  all_goals apply Prod.Lex.left
  all_goals simp only [vfW]
  all_goals omega

/-- shared.js validate (lines 30-137): the constraint evaluator. Returns
none when the call returns true, some e when it throws a Match.Error e
(either its own aggregated error or one propagated from an untried inner
validate call), and Except.error for genuine JS crashes. -/
def validate (x : Value) (ty : Pat) (conds : List (String × Pat)) :
    Except String (Option MErr) :=
  let structR : Except String (Sum (List String) MErr) :=
    if cond1OfTy ty then
      validateB1 (objFieldsV x) (patFields ty)
    else if cond2OfTy ty then
      match hp0 : patIndex0 ty with
      | some p0 =>
          match het : typeOf? p0 with
          | some etype =>
              let econds := condsOf p0
              let e1 := cPush (testSubtree x (.arr [etype]))
              match x with
              | .varr vs =>
                  match validateB2 vs etype econds with
                  | .error e => .error e
                  | .ok (some thrown) => .ok (.inr thrown)
                  | .ok none => .ok (.inl e1)
              | _ => .error "TypeError: x.forEach is not a function"
          | none => .error "Bad pattern"
      | none => .error "Bad pattern"
    else if cond3OfTy ty then
      match patIndex0 ty with
      | some p0 =>
          match x with
          | .varr vs => validateB3 vs 0 p0 x
          | _ => .error "TypeError: x.forEach is not a function"
      | none => .error "Bad pattern"
    else if optPatTruthy (conds.lookup "additionalProperties") then
      .ok (.inl (cPush (testSubtree (pickVal x (patKeysOf ty)) ty)))
    else
      .ok (.inl (cPush (testSubtree x ty)))
  match structR with
  | .error e => .error e
  | .ok (.inr thrown) => .ok (some thrown)
  | .ok (.inl serrs) =>
      match evalQualifiers x ty conds with
      | .error e => .error e
      | .ok qerrs =>
          let errs := serrs ++ qerrs
          if errs.isEmpty then .ok none
          else .ok (some ⟨"Match error: " ++ intercalateStr " and " errs, ""⟩)
termination_by (vW x, 4 * (pW ty + pfW conds) + 2)
decreasing_by
  all_goals try simp_wf
  all_goals first
    | (apply Prod.Lex.left
       exact vfW_objFields_lt x)
    | (apply Prod.Lex.left
       simp only [vW]
       omega)
    | (apply Prod.Lex.right
       omega)
    | (apply Prod.Lex.right
       simp only [pW, plW, pfW]
       omega)
    | (apply Prod.Lex.right
       have h1 := patIndex0_pW hp0
       have h2 := typeOf_pW het
       simp only [pW, plW, pfW]
       omega)
    | (rcases Nat.lt_or_ge (vW (pickVal x (patKeysOf ty))) (vW x) with h | h
       · exact Prod.Lex.left _ _ h
       · have heq : vW (pickVal x (patKeysOf ty)) = vW x :=
           Nat.le_antisymm (vW_pick_le x (patKeysOf ty)) h
         rw [heq]
         exact Prod.Lex.right _ (by omega))

/-- The embedded-object branch of validate (lines 34-45): walk the data
entries; entries whose declared descriptor carries a truthy `type` recurse
into validate (a thrown Match.Error propagates), other entries are tested
with Match.test and a failure pushes a type-mismatch message. -/
def validateB1 (xfs : List (String × Value)) (tfs : List (String × Pat)) :
    Except String (Sum (List String) MErr) :=
  match xfs with
  | [] => .ok (.inl [])
  | (k, v) :: rest =>
      match tfs.lookup k with
      | none => .error "TypeError: Cannot destructure property type of undefined"
      | some embedded =>
          match typeOf? embedded with
          | some etype =>
              if patTruthy etype then
                match validate v etype (condsOf embedded) with
                | .error e => .error e
                | .ok (some thrown) => .ok (.inr thrown)
                | .ok none => validateB1 rest tfs
              else
                match testSubtree v embedded with
                | .error e => .error e
                | .ok none => validateB1 rest tfs
                | .ok (some _) =>
                    match patJsName embedded with
                    | none => .error "TypeError: Cannot read properties of undefined (reading toLowerCase)"
                    | some nm =>
                        match validateB1 rest tfs with
                        | .error e => .error e
                        | .ok (.inr t) => .ok (.inr t)
                        | .ok (.inl es) => .ok (.inl
                            (("Expected " ++ toLowerStr nm ++ ", got " ++ jsTypeof v
                              ++ " in field " ++ k) :: es))
          | none =>
              match testSubtree v embedded with
              | .error e => .error e
              | .ok none => validateB1 rest tfs
              | .ok (some _) =>
                  match patJsName embedded with
                  | none => .error "TypeError: Cannot read properties of undefined (reading toLowerCase)"
                  | some nm =>
                      match validateB1 rest tfs with
                      | .error e => .error e
                      | .ok (.inr t) => .ok (.inr t)
                      | .ok (.inl es) => .ok (.inl
                          (("Expected " ++ toLowerStr nm ++ ", got " ++ jsTypeof v
                            ++ " in field " ++ k) :: es))
termination_by (vfW xfs, 0)
decreasing_by
  all_goals try simp_wf
  all_goals apply Prod.Lex.left
  all_goals simp only [vfW]
  all_goals omega

/-- The embedded-array branch of validate (lines 52-55): every element is
validated against the embedded type; a thrown Match.Error propagates. -/
def validateB2 (vs : List Value) (etype : Pat) (econds : List (String × Pat)) :
    Except String (Option MErr) :=
  match vs with
  | [] => .ok none
  | v :: rest =>
      match validate v etype econds with
      | .error e => .error e
      | .ok (some thrown) => .ok (some thrown)
      | .ok none => validateB2 rest etype econds
termination_by (vlW vs, 0)
decreasing_by
  all_goals try simp_wf
  all_goals apply Prod.Lex.left
  all_goals simp only [vlW]
  all_goals omega

/-- The array-of-arrays branch of validate (lines 56-73), carrying the
whole array x alongside the element iteration because the data-descriptor
sub-branch rechecks x itself. -/
def validateB3 (vs : List Value) (i : Nat) (p0 : Pat) (x : Value) :
    Except String (Sum (List String) MErr) :=
  match vs with
  | [] => .ok (.inl [])
  | value :: rest =>
      if jsTruthy (value.get "type") then
        let etv := value.get "type"
        let condsV := (objFieldsV value).filter (fun kv => kv.1 != "type")
        let e1 := cPush (litMatch etv x)
        match validateLit value etv condsV with
        | .error e => .error e
        | .ok (some thrown) => .ok (.inr thrown)
        | .ok none =>
            match validateB3 rest (i + 1) p0 x with
            | .error e => .error e
            | .ok (.inr t) => .ok (.inr t)
            | .ok (.inl es) => .ok (.inl (e1 ++ es))
      else
        let e1 : List String :=
          match patIndex p0 i with
          | some q => cPush (testSubtree value q)
          | none =>
              match value with
              | .vundef => []
              | w => ["Error: " ++ thrownMsg ⟨"Expected undefined, got " ++ gotTypeof w, ""⟩]
        match validateB3 rest (i + 1) p0 x with
        | .error e => .error e
        | .ok (.inr t) => .ok (.inr t)
        | .ok (.inl es) => .ok (.inl (e1 ++ es))
termination_by (vlW vs, 0)
decreasing_by
  all_goals try simp_wf
  all_goals apply Prod.Lex.left
  all_goals simp only [vlW]
  all_goals omega

end

/-- shared.js `allowed`: the qualifier vocabulary. -/
def allowed : List String := ["min", "max", "regex", "allow", "unique", "where", "additionalProperties"]

/-- The output of shape / deepPartialify: the rewritten fields plus the
collected dependency rules (the `$rules` side channel). shape also brands
its result with the `_shaped` symbol, which is tracked at the call sites. -/
structure ShapeResult where
  fields : List (String × Pat)
  rules : List DepRule

/-- Does the mapping carry a `type` key (`value.hasOwnProperty("type")`,
presence rather than truthiness). -/
def hasTypeKey (v : Pat) : Bool :=
  ((patFields v).lookup "type").isSome

/-- The dependency names of a `where` payload at field k: declared
single-parameter functions contribute their destructured parameter names
minus the field name itself (shared.js line 213). -/
def depsOf (whereP : Option Pat) (k : String) : List String :=
  match whereP with
  | some (.fn w) => if w.arity = 1 then w.params.filter (fun n => n ≠ k) else []
  | _ => []

theorem plW_litMap_le (es : List Value) : plW (es.map Pat.lit) ≤ 8 * vlW es := by
  induction es with
  | nil => simp [plW, vlW]
  | cons e es ih =>
      simp [plW, vlW, pW] at ih ⊢
      have := vW_pos e
      omega

mutual

/-- shared.js sculpt: rewrite the entries of a schema mapping, collecting
dependency rules. skip keeps wrapper keys (pattern, numeric indices) out of
the rule paths; isOptional prevents double-wrapping under optionalize. -/
def sculpt (optionalize : Bool) (entries : List (String × Pat))
    (currentPath : List String) (skip : Bool) (isOptional : Bool) :
    List (String × Pat) × List DepRule :=
  match entries with
  | [] => ([], [])
  | (k, v) :: rest =>
      let path := if skip then currentPath else currentPath ++ [k]
      let (pv, rv) := sculptField optionalize k v path isOptional
      let (prest, rrest) := sculpt optionalize rest currentPath skip isOptional
      ((k, pv) :: prest, rv ++ rrest)
termination_by pfW entries
decreasing_by
  all_goals simp only [pfW]
  all_goals omega

/-- One field of sculpt (the reduce body, shared.js lines 202-241). -/
def sculptField (optionalize : Bool) (k : String) (v : Pat) (path : List String)
    (isOptional : Bool) : Pat × List DepRule :=
  let mo : Pat → Pat := fun p => if optionalize && !isOptional then .maybe p else p
  match v with
  | .maybe inner =>
      let (pi, ri) := sculptField optionalize "pattern" inner path true
      (.maybe pi, ri)
  | .oneOf ps =>
      let (qs, rs) := sculptList optionalize ps 0 path true
      (mo (.oneOf qs), rs)
  | v =>
      if isObjectP v && hasTypeKey v then
        let fields := patFields v
        let type := (fields.lookup "type").getD (.lit .vundef)
        let conditions := fields.filter (fun kv => kv.1 != "type")
        let whereP := conditions.lookup "where"
        let restConditions := conditions.filter (fun kv => kv.1 != "where")
        let deps := depsOf whereP k
        let rules :=
          if deps.isEmpty then []
          else match whereP with
            | some (.fn w) => [{ path := path, rule := w, deps := deps }]
            | _ => []
        if conditions.any (fun kv => !allowed.contains kv.1) then
          let (pf, rf) := sculpt optionalize fields path false false
          (mo (.obj pf), rf ++ rules)
        else
          if conditions.isEmpty then (mo type, rules)
          else
            let finalConditions := if deps.isEmpty then conditions else restConditions
            match type with
            | .maybe tValue => (.maybe (.whereC tValue finalConditions), rules)
            | t => (mo (.whereC t finalConditions), rules)
      else if isArrayP v then
        match v with
        | .arr ps =>
            if (match ps.head? with | some h => isArrayP h | none => false) then
              (mo (.arr [.whereC v []]), [])
            else
              let (qs, rs) := sculptList optionalize ps 0 path false
              (mo (.arr qs), rs)
        | .lit (.varr es) =>
            if (match es.head? with | some h => isVArrV h | none => false) then
              (mo (.arr [.whereC v []]), [])
            else
              let (qs, rs) := sculptList optionalize (es.map .lit) 0 path false
              (mo (.arr qs), rs)
        | _ => (mo v, [])
      else if isObjectP v then
        let (pf, rf) := sculpt optionalize (patFields v) path false false
        (mo (.obj pf), rf)
      else (mo v, [])
termination_by pW v
decreasing_by
  all_goals first
    | (simp only [pW, plW, pfW]; omega)
    | (have h := pW_patFields_lt v; omega)
    | (rename_i es _
       have h8 := plW_litMap_le es
       simp only [pW, vW]
       omega)

/-- sculpt over the entries of an array or of OneOf choices (numeric keys;
skip controls whether the indices enter the rule path). -/
def sculptList (optionalize : Bool) (ps : List Pat) (i : Nat)
    (currentPath : List String) (skip : Bool) : List Pat × List DepRule :=
  match ps with
  | [] => ([], [])
  | p :: rest =>
      let path := if skip then currentPath else currentPath ++ [toString i]
      let (q, r) := sculptField optionalize (toString i) p path false
      let (qs, rs) := sculptList optionalize rest (i + 1) currentPath skip
      (q :: qs, r ++ rs)
termination_by plW ps
decreasing_by
  all_goals simp only [plW]
  all_goals omega

end

/-- shared.js shape (lines 196-249): sculpt the schema and attach the
collected rules; the `_shaped` brand is carried by the callers. -/
def shape (obj : List (String × Pat)) : ShapeResult :=
  let (fs, rs) := sculpt false obj [] false false
  ⟨fs, rs⟩

mutual

/-- easy-schema-server.js deepPartialify sculpt (lines 63-105): like shape
with every field wrapped Optional, plus its own quirks — the
ambiguity-fallback branch drops the current path, and OneOf keeps no
per-branch optionality parameter. -/
def dpSculpt (entries : List (String × Pat)) (currentPath : List String)
    (skip : Bool) : List (String × Pat) × List DepRule :=
  match entries with
  | [] => ([], [])
  | (k, v) :: rest =>
      let path := if skip then currentPath else currentPath ++ [k]
      let (pv, rv) := dpField k v path
      let (prest, rrest) := dpSculpt rest currentPath skip
      ((k, pv) :: prest, rv ++ rrest)
termination_by pfW entries
decreasing_by
  all_goals simp only [pfW]
  all_goals omega

/-- One field of deepPartialify sculpt. -/
def dpField (k : String) (v : Pat) (path : List String) : Pat × List DepRule :=
  match v with
  | .maybe inner =>
      let (pi, ri) := dpField "pattern" inner path
      (.maybe pi, ri)
  | .oneOf ps =>
      let (qs, rs) := dpList ps 0 path true
      (.maybe (.oneOf qs), rs)
  | v =>
      if isObjectP v && hasTypeKey v then
        let fields := patFields v
        let type := (fields.lookup "type").getD (.lit .vundef)
        let conditions := fields.filter (fun kv => kv.1 != "type")
        let whereP := conditions.lookup "where"
        let restConditions := conditions.filter (fun kv => kv.1 != "where")
        let deps := depsOf whereP k
        let rules :=
          if deps.isEmpty then []
          else match whereP with
            | some (.fn w) => [{ path := path, rule := w, deps := deps }]
            | _ => []
        if conditions.any (fun kv => !allowed.contains kv.1) then
          let (pf, rf) := dpSculpt fields [] false
          (.maybe (.obj pf), rf ++ rules)
        else
          if conditions.isEmpty then (.maybe type, rules)
          else
            let finalConditions := if deps.isEmpty then conditions else restConditions
            match type with
            | .maybe tValue => (.maybe (.whereC tValue finalConditions), rules)
            | t => (.maybe (.whereC t finalConditions), rules)
      else if isArrayP v then
        match v with
        | .arr ps =>
            if (match ps.head? with | some h => isArrayP h | none => false) then
              (.maybe (.arr [.whereC v []]), [])
            else
              let (qs, rs) := dpList ps 0 path false
              (.maybe (.arr qs), rs)
        | .lit (.varr es) =>
            if (match es.head? with | some h => isVArrV h | none => false) then
              (.maybe (.arr [.whereC v []]), [])
            else
              let (qs, rs) := dpList (es.map .lit) 0 path false
              (.maybe (.arr qs), rs)
        | _ => (.maybe v, [])
      else if isObjectP v then
        let (pf, rf) := dpSculpt (patFields v) path false
        (.maybe (.obj pf), rf)
      else (.maybe v, [])
termination_by pW v
decreasing_by
  all_goals first
    | (simp only [pW, plW, pfW]; omega)
    | (have h := pW_patFields_lt v; omega)
    | (rename_i es _
       have h8 := plW_litMap_le es
       simp only [pW, vW]
       omega)

/-- deepPartialify sculpt over array entries or OneOf choices. -/
def dpList (ps : List Pat) (i : Nat) (currentPath : List String) (skip : Bool) :
    List Pat × List DepRule :=
  match ps with
  | [] => ([], [])
  | p :: rest =>
      let path := if skip then currentPath else currentPath ++ [toString i]
      let (q, r) := dpField (toString i) p path
      let (qs, rs) := dpList rest (i + 1) currentPath skip
      (q :: qs, r ++ rs)
termination_by plW ps
decreasing_by
  all_goals simp only [plW]
  all_goals omega

end

/-- easy-schema-server.js deepPartialify (lines 60-110). -/
def deepPartialify (obj : List (String × Pat)) : ShapeResult :=
  let (fs, rs) := dpSculpt obj [] false
  ⟨fs, rs⟩

/-- shared.js extract (line 150): walk the data along a rule path; a final
"0" segment flattens an array (or the values of an object); reading a
property of undefined or null raises. -/
def extract (obj : Value) (path : List String) : Except String Value :=
  match path with
  | [] => .ok obj
  | key :: rest =>
      let isLast := rest.isEmpty
      if isLast && key == "0" then
        match obj with
        | .varr _ => .ok obj
        | .vobj fs => .ok (.varr (fs.map (·.2)))
        | .vnull => .error "TypeError: Cannot convert null to object"
        | .vundef => .error "TypeError: Cannot convert undefined to object"
        | _ => .ok (.varr [])
      else
        match obj with
        | .vundef => .error "TypeError: Cannot read properties of undefined"
        | .vnull => .error "TypeError: Cannot read properties of null"
        | w => extract (w.get key) rest

/-- Run a where rule over each element (Array.prototype.every with a
possibly-throwing callback): stops early on a falsy result without error;
a raised error propagates. -/
def everyRun (w : WhereFn) (ds : List Value) : Except String Unit :=
  match ds with
  | [] => .ok ()
  | d :: rest =>
      match w.run d .vundef with
      | .error m => .error m
      | .ok r => if jsTruthy r then everyRun w rest else .ok ()

/-- shared.js enforce (lines 152-175): run every rule whose first path
segment names a present top-level key; a raised error becomes a
path-tagged "w: ..." entry; some list = the thrown error array. -/
def enforce (data : Value) (rules : List DepRule) : Option (List (String × String)) :=
  let keys := jsKeys data
  let matched := rules.filter (fun r =>
    match r.path.head? with
    | some h => keys.contains h
    | none => false)
  let errors := matched.filterMap (fun r =>
    let attempt : Except String Unit :=
      match (if r.path.length == 1 then .ok data else extract data r.path.dropLast) with
      | .error e => .error e
      | .ok ruleData =>
          match ruleData with
          | .varr ds => everyRun r.rule ds
          | d =>
              match r.rule.run d .vundef with
              | .error m => .error m
              | .ok _ => .ok ()
    match attempt with
    | .error e => some (intercalateStr "." r.path, "w: " ++ e)
    | .ok _ => none)
  if errors.isEmpty then none else some errors

/-- easy-schema-server.js typeMap (lines 17-27): constructor name to mongo
bson type tag. -/
def typeMap : List (String × String) :=
  [("String", "string"), ("Number", "double"), ("Boolean", "bool"),
   ("Date", "date"), ("Object", "object"), ("Array", "array"),
   ("__integer__", "int"), ("Decimal", "decimal")]

/-- `typeMap[typeValue.name || typeValue]`: look the constructor name up,
falling back to the stringified value itself (the Integer sentinel prints
as __integer__, the Any sentinel as __any__ which is unmapped). -/
def tmapOf (v : Pat) : Option String :=
  match patJsName v with
  | some nm => typeMap.lookup nm
  | none =>
      match v with
      | .integer => typeMap.lookup "__integer__"
      | .lit lv => typeMap.lookup (jsToString lv)
      | _ => none

/-- minProps (easy-schema-server.js lines 112-119). -/
def minProps : List (String × String) :=
  [("int", "minimum"), ("decimal", "minimum"), ("double", "minimum"),
   ("string", "minLength"), ("array", "minItems"), ("object", "minProperties")]

/-- maxProps (easy-schema-server.js lines 121-128). -/
def maxProps : List (String × String) :=
  [("int", "maximum"), ("decimal", "maximum"), ("double", "maximum"),
   ("string", "maxLength"), ("array", "maxItems"), ("object", "maxProperties")]

/-- The printed form of a regex qualifier payload
(`(Array.isArray(regex) ? regex[0] : regex).toString()`). -/
def regexRepr (p : Pat) : String :=
  match p with
  | .re r => r.printed
  | .arr ps =>
      match ps.getD 0 (.lit .vundef) with
      | .re r => r.printed
      | q => jsToString (patToValue q)
  | .lit (.varr es) => jsToString (es.getD 0 .vundef)
  | q => jsToString (patToValue q)

/-- easy-schema-server.js createQualifiers (lines 130-159): map the
qualifier payloads onto the backend vocabulary for the given bson type tag
(an unmapped tag stores bounds under the key "undefined", as the JS
property lookup does). A non-array allow payload would raise in JS; it is
modelled as passed through. -/
def createQualifiers (type : String) (conditions : List (String × Pat)) :
    List (String × Value) :=
  (match conditions.lookup "min" with
   | some p => [((minProps.lookup type).getD "undefined", (pairOf (some p)).1)]
   | none => [])
  ++ (match conditions.lookup "max" with
   | some p => [((maxProps.lookup type).getD "undefined", (pairOf (some p)).1)]
   | none => [])
  ++ (match conditions.lookup "regex" with
   | some p => [("pattern", .vstr (regexRepr p))]
   | none => [])
  ++ (match conditions.lookup "allow" with
   | some p =>
      let es : Option (List Value) :=
        match p with
        | .lit (.varr es) => some es
        | .arr ps => some (ps.map patToValue)
        | _ => none
      match es with
      | some es =>
          let lastStr : Option String :=
            match es.getLast? with
            | some (.vstr st) => some st
            | _ => none
          let alwErr : Option String := if es.any isVArrV then lastStr else none
          [("enum", if alwErr.isSome then es.headD .vundef else .varr es)]
      | none => [("enum", patToValue p)]
   | none => [])
  ++ (match conditions.lookup "unique" with
   | some p => [("uniqueItems", (pairOf (some p)).1)]
   | none => [])
  ++ (match conditions.lookup "additionalProperties" with
   | some p => [("additionalProperties", patToValue p)]
   | none => [])

/-- JS object spread merge: fields of the second override same-named fields
of the first (keeping their position), new fields append. -/
def mergeObj (base : Value) (extra : List (String × Value)) : Value :=
  match base with
  | .vobj fs =>
      .vobj (extra.foldl (fun acc kv =>
        if acc.any (fun e => e.1 == kv.1)
        then acc.map (fun e => if e.1 == kv.1 then kv else e)
        else acc ++ [kv]) fs)
  | w => w

mutual

/-- One property of createJSONSchema (the reduce body, easy-schema-server.js
lines 166-218): the compiled property value, plus whether this key is added
to optionalKeys (an Optional wrapper, or a constrained field whose type is
Optional). The array branch destructures the type key out of the unwrapped
first element (line 203), so a first element that is undefined or null —
an empty array, or a literal null or undefined entry — raises a TypeError
that propagates out of the whole compilation. -/
def cjsField (v : Pat) : Except String (Value × Bool) :=
  match v with
  | .maybe inner =>
      match cjsField inner with
      | .error e => .error e
      | .ok r => .ok (r.1, true)
  | .oneOf ps =>
      match cjsList ps with
      | .error e => .error e
      | .ok l => .ok (.vobj [("anyOf", .varr l)], false)
  | v =>
      if isObjectP v && hasTypeKey v then
        match ht : (patFields v).lookup "type" with
        | some type =>
            let fields := patFields v
            let conditions := fields.filter
              (fun kv => kv.1 != "type" && kv.1 != "where")
            if conditions.any (fun kv => !allowed.contains kv.1) then
              match cjsObject fields with
              | .error e => .error e
              | .ok o => .ok (o, false)
            else
              match type with
              | .maybe tValue =>
                  if isObjectP tValue then
                    match cjsField tValue with
                    | .error e => .error e
                    | .ok f => .ok (mergeObj f.1 (createQualifiers "object" conditions), true)
                  else if isArrayP tValue then
                    match cjsField tValue with
                    | .error e => .error e
                    | .ok f => .ok (mergeObj f.1 (createQualifiers "array" conditions), true)
                  else
                    let mapped := tmapOf tValue
                    .ok (.vobj (("bsonType",
                        match mapped with | some st => .vstr st | none => .vundef)
                      :: createQualifiers (mapped.getD "undefined") conditions), true)
              | tValue =>
                  if isObjectP tValue then
                    match cjsField tValue with
                    | .error e => .error e
                    | .ok f => .ok (mergeObj f.1 (createQualifiers "object" conditions), false)
                  else if isArrayP tValue then
                    match cjsField tValue with
                    | .error e => .error e
                    | .ok f => .ok (mergeObj f.1 (createQualifiers "array" conditions), false)
                  else
                    let mapped := tmapOf tValue
                    .ok (.vobj (("bsonType",
                        match mapped with | some st => .vstr st | none => .vundef)
                      :: createQualifiers (mapped.getD "undefined") conditions), false)
        | none => .ok (.vobj [], false)
      else if isArrayP v then
        match hh : patIndex0 v with
        | some head =>
            let (firstValue, headOpt) :=
              match head with
              | .maybe i => (i, true)
              | t => (t, false)
            match firstValue with
            | .lit .vundef =>
                .error "TypeError: Cannot destructure property type of firstValue as it is undefined."
            | .lit .vnull =>
                .error "TypeError: Cannot destructure property type of firstValue as it is null."
            | _ =>
                let fvType := (patFields firstValue).lookup "type"
                let fvTypeOptional :=
                  match fvType with
                  | some (.maybe _) => true
                  | _ => false
                let itemsE : Except String Value :=
                  match head with
                  | .arr qs =>
                      match cjsList qs with
                      | .error e => .error e
                      | .ok l => .ok (.varr l)
                  | .lit (.varr es) =>
                      match cjsList (es.map .lit) with
                      | .error e => .error e
                      | .ok l => .ok (.varr l)
                  | _ =>
                      match cjsField head with
                      | .error e => .error e
                      | .ok f => .ok f.1
                match itemsE with
                | .error e => .error e
                | .ok items =>
                    .ok (.vobj ([("bsonType", .vstr "array"), ("items", items)]
                      ++ (if headOpt || fvTypeOptional then [("minItems", .vnum 0)] else [])), false)
        | none =>
            .error "TypeError: Cannot destructure property type of firstValue as it is undefined."
      else if isObjectP v then
        match cjsObject (patFields v) with
        | .error e => .error e
        | .ok o => .ok (o, false)
      else
        match tmapOf v with
        | some t => .ok (.vobj [("bsonType", .vstr t)], false)
        | none =>
            match v with
            | .lit .vnull => .ok (.vobj [("bsonType", .vstr "null")], false)
            | _ => .ok (.vobj [], false)
termination_by (pW v, 1)
decreasing_by
  all_goals first
    | (apply Prod.Lex.left
       simp only [pW, plW, pfW]
       omega)
    | (apply Prod.Lex.left
       have h1 := pW_lookup_lt ht
       have h2 := pW_patFields_lt v
       try simp only [pW, plW, pfW] at h1
       try simp only [pW, plW, pfW]
       omega)
    | (apply Prod.Lex.left
       have h1 := patIndex0_pW hh
       try simp only [pW, plW, pfW] at h1
       try simp only [pW, plW, pfW]
       omega)
    | (rename_i es _ _
       apply Prod.Lex.left
       have h1 := patIndex0_pW hh
       have h8 := plW_litMap_le es
       try simp only [pW, vW, vlW] at h1
       try simp only [pW, vW, vlW]
       omega)
    | (apply Prod.Lex.left
       rename_i hhh _
       have h1 := patIndex0_pW hhh
       omega)
    | (rcases Nat.lt_or_ge (pfW (patFields v) + 1) (pW v) with h | h
       · exact Prod.Lex.left _ _ h
       · have hlt := pW_patFields_lt v
         have heq : pfW (patFields v) + 1 = pW v := by omega
         rw [heq]
         exact Prod.Lex.right _ (by omega))

/-- The full object compilation of createJSONSchema (lines 162-229):
properties in field order, required = the non-optional keys, and the
additionalProperties field of the source object (defaulting to false); a
TypeError raised while compiling any field propagates. -/
def cjsObject (fields : List (String × Pat)) : Except String Value :=
  match cjsFields fields with
  | .error e => .error e
  | .ok props =>
      let properties := props.map (fun kp => (kp.1, kp.2.1))
      let optKeys := (props.filter (fun kp => kp.2.2)).map (·.1)
      let required := (properties.map (·.1)).filter (fun k => !optKeys.contains k)
      let ap : Value :=
        match fields.lookup "additionalProperties" with
        | some p =>
            match patToValue p with
            | .vundef => .vbool false
            | .vnull => .vbool false
            | w => w
        | none => .vbool false
      .ok (.vobj [("bsonType", .vstr "object"), ("properties", .vobj properties),
        ("required", .varr (required.map .vstr)), ("additionalProperties", ap)])
termination_by (pfW fields + 1, 0)
decreasing_by
  apply Prod.Lex.left
  omega

/-- createJSONSchema over the fields of an object. -/
def cjsFields (fields : List (String × Pat)) :
    Except String (List (String × (Value × Bool))) :=
  match fields with
  | [] => .ok []
  | (k, p) :: rest =>
      match cjsField p with
      | .error e => .error e
      | .ok pv =>
          match cjsFields rest with
          | .error e => .error e
          | .ok rs => .ok ((k, pv) :: rs)
termination_by (pfW fields, 0)
decreasing_by
  all_goals first
    | (apply Prod.Lex.left; simp only [pfW]; omega)
    | (apply Prod.Lex.right; omega)

/-- createJSONSchema over list entries (OneOf choices, array-of-array
elements). -/
def cjsList (ps : List Pat) : Except String (List Value) :=
  match ps with
  | [] => .ok []
  | p :: rest =>
      match cjsField p with
      | .error e => .error e
      | .ok f =>
          match cjsList rest with
          | .error e => .error e
          | .ok l => .ok (f.1 :: l)
termination_by (plW ps, 0)
decreasing_by
  all_goals first
    | (apply Prod.Lex.left; simp only [plW]; omega)
    | (apply Prod.Lex.right; omega)

end

/-- easy-schema-server.js createJSONSchema applied to a raw user schema:
the compiled JSON schema, or the TypeError message the compilation raises. -/
def createJSONSchema (fields : List (String × Pat)) : Except String Value :=
  cjsObject fields

/-- Character-level split on the dot delimiter (the key.split with a dot of
the flat package unflatten). -/
def splitChAux (acc : List Char) : List Char → List (List Char)
  | [] => [acc.reverse]
  | c :: cs => if c = '.' then acc.reverse :: splitChAux [] cs else splitChAux (c :: acc) cs

/-- Split a flattened key into its dot-separated segments. -/
def splitDots (s : String) : List String :=
  (splitChAux [] s.data).map (fun l => String.mk l)

/-- Is the key an array index (the getkey numeric test of the flat package
unflatten). -/
def isNumKey (s : String) : Bool :=
  s ≠ "" && s.data.all Char.isDigit

/-- flatten with safe: true (the flat package): nonempty plain objects are
flattened recursively with dot-joined keys; arrays, dates, scalars and
empty objects stay as leaves. Structurally on a fuel bound (the weight
vfW, which strictly exceeds the recursion depth since every recursive call
drops into a strictly lighter list). -/
def flattenFuel : Nat → List (String × Value) → List (String × Value)
  | 0, l => l
  | _ + 1, [] => []
  | fuel + 1, (k, .vobj fs) :: rest =>
      if fs.isEmpty then (k, .vobj fs) :: flattenFuel fuel rest
      else (flattenFuel fuel fs).map (fun kv => (k ++ "." ++ kv.1, kv.2)) ++ flattenFuel fuel rest
  | fuel + 1, (k, v) :: rest => (k, v) :: flattenFuel fuel rest

def flattenFields (l : List (String × Value)) : List (String × Value) :=
  flattenFuel (vfW l) l

/-- JS object property assignment: update in place, or append. -/
def setObjField (fs : List (String × Value)) (k : String) (v : Value) :
    List (String × Value) :=
  if fs.any (fun kv => kv.1 == k) then fs.map (fun kv => if kv.1 == k then (k, v) else kv)
  else fs ++ [(k, v)]

/-- JS array index assignment, padding holes with undefined. -/
def setArrIdx (es : List Value) (i : Nat) (v : Value) : List Value :=
  if i < es.length then es.set i v
  else es ++ List.replicate (i - es.length) .vundef ++ [v]

/-- Property read during unflatten insertion. -/
def getKeyU (c : Value) (k : String) : Value :=
  match c with
  | .vobj fs => (fs.lookup k).getD .vundef
  | .varr es => if isNumKey k then es.getD (toNatStr k) .vundef else .vundef
  | _ => (.vundef : Value)

/-- Property write during unflatten insertion. -/
def setKeyU (c : Value) (k : String) (v : Value) : Value :=
  match c with
  | .vobj fs => .vobj (setObjField fs k v)
  | .varr es => if isNumKey k then .varr (setArrIdx es (toNatStr k) v) else .varr es
  | w => w

/-- One key insertion of the flat package unflatten: walk the segments,
creating an array when the next segment is numeric and an object otherwise,
overwriting non-container intermediates. -/
def insertSegs (c : Value) (segs : List String) (v : Value) : Value :=
  match segs with
  | [] => c
  | [k] => setKeyU c k v
  | k :: rest =>
      let next := rest.headD ""
      let child := getKeyU c k
      let childOk :=
        match child with
        | .vobj _ => true
        | .varr _ => true
        | _ => false
      let child2 := if childOk then child else (if isNumKey next then .varr [] else .vobj [])
      setKeyU c k (insertSegs child2 rest v)

/-- The flat package unflatten over the flattened pairs, in insertion
order. (The npm implementation visits keys shortest-first, which can only
permute result keys, never change the document; insertion order keeps the
embedding deterministic and matches the documents compared here.) -/
def unflattenPairs (pairs : List (String × Value)) : Value :=
  pairs.foldl (fun acc kv => insertSegs acc (splitDots kv.1) kv.2) (.vobj [])

theorem length_dropWhile_le_ES (p : Char → Bool) :
    ∀ l : List Char, (l.dropWhile p).length ≤ l.length := by
  intro l
  induction l with
  | nil => simp [List.dropWhile]
  | cons c cs ih =>
      simp only [List.dropWhile]
      split
      · exact Nat.le_trans ih (by simp)
      · simp

/-- The key rewriting of transformObject (replace, globally, a positional
marker or a digit run with the character 0), structurally on a fuel bound
(the fuel is the list length, enough since every step consumes a
character). -/
def opReplaceFuel : Nat → List Char → List Char
  | 0, l => l
  | _ + 1, [] => []
  | fuel + 1, c :: rest =>
      if c = '$' then
        match rest with
        | c2 :: rest2 =>
            if c2 = '[' then
              let after := rest2.drop ((rest2.takeWhile (fun ch => ch.isAlphanum || ch = '_')).length)
              match after.head? with
              | some c3 =>
                  if c3 = ']' then '0' :: opReplaceFuel fuel after.tail
                  else '0' :: opReplaceFuel fuel (c2 :: rest2)
              | none => '0' :: opReplaceFuel fuel (c2 :: rest2)
            else '0' :: opReplaceFuel fuel (c2 :: rest2)
        | [] => ['0']
      else if c.isDigit then '0' :: opReplaceFuel fuel (rest.dropWhile Char.isDigit)
      else c :: opReplaceFuel fuel rest

def opReplaceAux (l : List Char) : List Char :=
  opReplaceFuel l.length l

/-- Key rewriting on strings. -/
def opKeyReplace (s : String) : String :=
  String.mk (opReplaceAux s.data)

/-- Does the replaced key end with the canonical positional marker ".0". -/
def endsWithDot0 (s : String) : Bool :=
  match s.data.reverse with
  | c0 :: c1 :: _ => c0 = '0' && c1 = '.'
  | _ => false

/-- `replace(/.0$/, "")`: strip a trailing character-plus-zero pair. -/
def stripDot0 (s : String) : String :=
  match s.data.reverse with
  | c0 :: _ :: rest => if c0 = '0' then String.mk rest.reverse else s
  | _ => s

/-- `Object.values(v)[0]`. -/
def firstValueV (v : Value) : Value :=
  match v with
  | .vobj fs => ((fs.head?).map (·.2)).getD .vundef
  | .varr es => es.headD .vundef
  | _ => (.vundef : Value)

/-- easy-schema-server.js transformObject (lines 292-299). -/
def transformObject (fields : List (String × Value))
    (isArrayOperator isCurrentDateOperator isBitOperator : Bool) :
    List (String × Value) :=
  fields.foldl (fun acc kv =>
    let replaced := opKeyReplace kv.1
    let endsPos := endsWithDot0 replaced
    let newKey := stripDot0 replaced
    let val :=
      if isArrayOperator || endsPos then
        (if (jsKeys kv.2).contains "$each" then firstValueV kv.2 else .varr [kv.2])
      else if isCurrentDateOperator then .vdate
      else if isBitOperator then firstValueV kv.2
      else kv.2
    setObjField acc newKey val) []

/-- easy-schema-server.js supportedOperators (line 301). -/
def supportedOperators : List String :=
  ["$set", "$setOnInsert", "$inc", "$addToSet", "$push", "$min", "$max",
   "$mul", "$currentDate", "$bit"]

/-- easy-schema-server.js transformModifier (lines 302-312): merge the
rewritten operator payloads (non-operator keys without a dollar sign pass
through for the upsert query case), then flatten with safe: true. -/
def transformModifier (modifier : Value) : List (String × Value) :=
  let merged := (objFieldsV modifier).foldl (fun acc kv =>
    if !supportedOperators.contains kv.1 then
      (if !(startsWithL [ Char.ofNat 36] kv.1.data) then setObjField acc kv.1 kv.2 else acc)
    else
      let isArrayOp := kv.1 == "$addToSet" || kv.1 == "$push"
      let isCurrentDate := kv.1 == "$currentDate"
      let isBit := kv.1 == "$bit"
      (transformObject (objFieldsV kv.2) isArrayOp isCurrentDate isBit).foldl
        (fun a e => setObjField a e.1 e.2) acc) []
  flattenFields merged

/-- A ValidationError detail entry as built by the catch block of check
(easy-schema-server.js lines 340-348); a "" name models the undefined name
that arises when the message carries no quoted key. -/
structure VErr where
  name : String
  type : String
  message : String
  path : Option String
deriving Repr, DecidableEq

/-- The observable result of the server check call: success, a thrown
ValidationError with its details array, or an escaping non-ValidationError
exception (a crash). -/
inductive CheckOutcome where
  | success
  | validationError (errs : List VErr)
  | crash (msg : String)
deriving Repr, DecidableEq

/-- A schema argument to check: its fields, its $rules, whether it carries
the _shaped brand, and whether it has a $id key. -/
structure JSchema where
  fields : List (String × Pat)
  rules : List DepRule
  shaped : Bool
  hasDollarId : Bool

/-- The error-type classification of the catch block (line 341). -/
def errTypeOf (m : String) : String :=
  if jsContains m "Missing key" then "required"
  else if jsContains m "Expected" then "type"
  else "condition"

/-- The two regex matches of line 342 over the thrown message: the greedy
groups of Expected (.+), got (.+) in resolve to the last ", got " and the
last " in" after the first "Expected "; the fallback regex keeps only the
first group. -/
def matchExpected (m : String) : Option (String × Option String) :=
  match splitOnStr m "Expected " with
  | [] => none
  | [_] => none
  | _ :: rest =>
      let s1 := intercalateStr "Expected " rest
      let gotParts := splitOnStr s1 ", got "
      let tryGot : Option (String × Option String) :=
        if gotParts.length < 2 then none
        else
          let g1 := intercalateStr ", got " gotParts.dropLast
          let s2 := gotParts.getLastD ""
          let inParts := splitOnStr s2 " in"
          if inParts.length < 2 then none
          else some (g1, some (intercalateStr " in" inParts.dropLast))
      match tryGot with
      | some r => some r
      | none =>
          let inParts := splitOnStr s1 " in"
          if inParts.length < 2 then none
          else some (intercalateStr " in" inParts.dropLast, none)

/-- Drop a leading run of non-whitespace characters (the trailing token
eaten by the in-field marker regex). -/
def dropTok (s : String) : String :=
  String.mk (s.data.dropWhile (fun ch => !ch.isWhitespace))

/-- Remove every "in field path" marker. -/
def removeInField (s : String) : String :=
  match splitOnStr s "in field " with
  | [] => ""
  | first :: rest => first ++ intercalateStr "" (rest.map dropTok)

/-- Line 343 for the non-matching case: strip the Match error, w: and
in-field markers then trim. -/
def stripMarkers (m : String) : String :=
  trimStr (removeInField (replaceStr (replaceStr m "Match error:" "") "w:" ""))

/-- The catch block of check (lines 340-348): build the single
ValidationError detail from the thrown path and message. -/
def catchToVErr (path : String) (m : String) : VErr :=
  let type := errTypeOf m
  let mres := if type == "type" then matchExpected m else none
  let errorMessage :=
    if type == "required" then "is required"
    else
      match mres with
      | some (a, b) =>
          "must be a " ++ a ++ (match b with | some g => ", not " ++ g | none => "")
      | none => stripMarkers m
  let splitPath := splitOnStr path "."
  let name := if type == "required" then ((splitOnStr m sq).getD 1 "") else splitPath.getLastD ""
  let popped := if type == "required" then splitPath else splitPath.dropLast
  let message :=
    if name != "" && (type != "condition" || !jsContains m "w:") then
      capitalize (spaceCamel name) ++ " " ++ errorMessage
    else errorMessage
  { name := name, type := type, message := message,
    path := if popped.length > 1 then some path else none }

/-- easy-schema-server.js check (lines 321-350): normalize operator data,
choose and trim the schema, run meteor check and then enforce; a Match
error becomes a one-entry ValidationError, while a non-Match exception (no
path property) and the array thrown by enforce (no message property) both
crash the catch block itself with a TypeError. -/
def check (data : Value) (schema : JSchema) (full : Bool) : CheckOutcome :=
  let dataHasOperators := hasOperators data
  let dataToCheck :=
    if dataHasOperators then unflattenPairs (transformModifier data) else data
  let sr : ShapeResult :=
    if schema.hasDollarId || schema.shaped then ⟨schema.fields, schema.rules⟩
    else if dataHasOperators then deepPartialify schema.fields
    else shape schema.fields
  let shapedSchema :=
    if full then sr.fields.filter (fun kv => kv.1 != "_id") else sr.fields
  let schemaToCheck :=
    if dataHasOperators || full || (schema.shaped && !schema.hasDollarId) then shapedSchema
    else pickP shapedSchema (jsKeys dataToCheck)
  match testSubtree dataToCheck (.obj schemaToCheck) with
  | .error _ => .crash "TypeError: Cannot read properties of undefined (reading split)"
  | .ok (some err) =>
      let thrown := mkThrown err
      .validationError [catchToVErr thrown.path thrown.message]
  | .ok none =>
      if sr.rules.isEmpty then .success
      else
        match enforce dataToCheck sr.rules with
        | none => .success
        | some _ => .crash "TypeError: Cannot read properties of undefined (reading includes)"

unseal testSubtree testOneOf testArrElems testObjData validate validateB1 validateB2 validateB3 litMatch litMatchArr litMatchObj sculpt sculptField sculptList dpSculpt dpField dpList cjsField cjsObject cjsFields cjsList

set_option maxRecDepth 100000

-- Claim scenarios ---------------------------------------------------------

/-- The update modifier of the operator-normalization scenario:
set of the positional items qty, push of a tag. -/
def pushSetModifier : Value :=
  .vobj [("$set", .vobj [("items.$.qty", .vnum 3)]), ("$push", .vobj [("tags", .vstr "x")])]

/-- A two-field schema a: Number, b: String. -/
def schemaTwoFields : List (String × Pat) := [("a", Pat.num), ("b", Pat.str)]

/-- The schema argument check receives for schemaTwoFields (a raw custom
schema: unshaped, no $id). -/
def jsTwoFields : JSchema := ⟨schemaTwoFields, [], false, false⟩

/-- Data violating both fields of schemaTwoFields at once. -/
def dataTwoWrong : Value := .vobj [("a", .vstr "x"), ("b", .vnum 1)]

-- C8 -----------------------------------------------------------------------

/-- C8: the Update-Operator Normalizer rewrites the modifier
set items positional qty 3 / push tags x into the plain nested document
with items an array holding the qty object and tags a one-element array;
and in general an array-appending operator wraps the payload in a
one-element array unless the payload carries the $each marker, in which
case the first payload value is used directly. -/
theorem claim_C8 :
    unflattenPairs (transformModifier pushSetModifier) =
      .vobj [("items", .varr [.vobj [("qty", .vnum 3)]]), ("tags", .varr [.vstr "x"])]
    ∧ ∀ (k : String) (v : Value),
        transformObject [(k, v)] true false false =
          [(stripDot0 (opKeyReplace k),
            if (jsKeys v).contains "$each" then firstValueV v else .varr [v])] := by
  constructor
  · rfl
  · intro k v
    simp [transformObject, setObjField]

-- C2 -----------------------------------------------------------------------

/-- C2 counterexample: both fields of dataTwoWrong are violated (each
fails its testSubtree individually), yet the single validation call
reports exactly one entry, naming only the first violated field a — the
second violation on b is not collected. -/
theorem claim_C2_counterexample :
    testSubtree (.vstr "x") Pat.num = .ok (some ⟨"Expected number, got string", ""⟩)
    ∧ testSubtree (.vnum 1) Pat.str = .ok (some ⟨"Expected string, got number", ""⟩)
    ∧ check dataTwoWrong jsTwoFields false =
        .validationError [⟨"a", "type", "A must be a number, not string", none⟩] :=
  ⟨rfl, rfl, rfl⟩

/-- C2: every check call raises at most one failure: the outcome is either
success, a crash, or a single ValidationError carrying exactly one error
entry — never several entries and never several separate exceptions (the
corrected claim: the underlying meteor check stops at the first violation,
so the one entry describes only the first violated field, not all of
them). -/
theorem claim_C2 :
    ∀ (data : Value) (schema : JSchema) (full : Bool),
      check data schema full = .success
      ∨ (∃ e, check data schema full = .validationError [e])
      ∨ (∃ m, check data schema full = .crash m) := by
  intro data schema full
  simp only [check]
  repeat' split
  all_goals first
    | exact Or.inl rfl
    | exact Or.inr (Or.inl ⟨_, rfl⟩)
    | exact Or.inr (Or.inr ⟨_, rfl⟩)

-- C3 -----------------------------------------------------------------------

/-- The two-parameter where predicate of the dependency scenario:
(b, destructured a) with a thrown string when b <= a. Its declared arity
is 2 and its destructured second-argument names are recorded as data. -/
def whereTwoParam : WhereFn :=
  ⟨2, ["a"], fun b q => if jsLeV b (q.get "a") then .error "b must exceed a" else .ok .vundef⟩

/-- The dependency scenario schema a: Number, b: constrained Number with
the two-parameter where. -/
def schemaDep2 : List (String × Pat) :=
  [("a", Pat.num), ("b", Pat.obj [("type", Pat.num), ("where", Pat.fn whereTwoParam)])]

/-- The check argument for schemaDep2 (raw custom schema). -/
def jsDep2 : JSchema := ⟨schemaDep2, [], false, false⟩

/-- C3 counterexample: validating the data a 5, b 5 against the dependency
scenario schema succeeds — no condition failure on path b is raised. The
two-parameter where is not recorded as a dependency rule (the Shaper only
records single-parameter predicates), so it runs inline against the
qualifier object, where the sibling a reads as undefined and the
comparison 5 <= undefined is false. -/
theorem claim_C3_counterexample :
    check (.vobj [("a", .vnum 5), ("b", .vnum 5)]) jsDep2 false = .success := rfl

/-- C3: corrected dependency scenario — with the two-parameter where of the
claim, the Shaper records no dependency rule at all (rules are only
collected for single-parameter predicates), the predicate is kept inline,
and both documents pass: the inline call receives the qualifier object as
its second argument, so the sibling a is undefined and the guard never
fires. -/
theorem claim_C3 :
    (shape schemaDep2).rules = []
    ∧ check (.vobj [("a", .vnum 5), ("b", .vnum 5)]) jsDep2 false = .success
    ∧ check (.vobj [("a", .vnum 5), ("b", .vnum 6)]) jsDep2 false = .success :=
  ⟨rfl, rfl, rfl⟩

-- C7 -----------------------------------------------------------------------

/-- The allow payload of the enum-custom-message scenario: a nested list of
letters followed by a bare message string. -/
def allowListLetter : List Value := [.varr [.vstr "a", .vstr "b"], .vstr "must be a letter"]

/-- The scenario schema: one string field with the allow payload. -/
def schemaAllowLetter : List (String × Pat) :=
  [("f", Pat.obj [("type", Pat.str), ("allow", Pat.lit (.varr allowListLetter))])]

/-- The check argument for schemaAllowLetter. -/
def jsAllowLetter : JSchema := ⟨schemaAllowLetter, [], false, false⟩

/-- Modelled from the claim sentence: membership tested against the allow
list with the final custom-message element stripped (JS includes semantics
for a scalar candidate: strict equality or string-coercion equality
against each remaining entry). This is the claimed behavior, stated for
comparison with the source behavior. -/
def specStrippedAllowPass (es : List Value) (x : Value) : Bool :=
  (es.dropLast).any (fun a => strictEqV a x || (jsToString a == jsToString x))

/-- C7 counterexample: on the scenario allow list, the source accepts the
value a (it tests membership against the first element only, the inner
letter list), while the claimed semantics — membership against the whole
list with the final message stripped — rejects it, because a is not an
element of that stripped list. -/
theorem claim_C7_counterexample :
    check (.vobj [("f", .vstr "a")]) jsAllowLetter false = .success
    ∧ specStrippedAllowPass allowListLetter (.vstr "a") = false :=
  ⟨rfl, rfl⟩

/-- C7: corrected enum-custom-message behavior — with the scenario allow
list, the candidate c fails with a single condition entry whose message is
exactly the bare final string, while a and b pass: when the heuristic
detects a custom message, membership is tested against the FIRST element
of the list (the inner letter list), not against the list with the final
element stripped. -/
theorem claim_C7 :
    check (.vobj [("f", .vstr "c")]) jsAllowLetter false =
      .validationError [⟨"f", "condition", "must be a letter", none⟩]
    ∧ check (.vobj [("f", .vstr "a")]) jsAllowLetter false = .success
    ∧ check (.vobj [("f", .vstr "b")]) jsAllowLetter false = .success :=
  ⟨rfl, rfl, rfl⟩

-- C6 -----------------------------------------------------------------------

/-- The bound scenario schema: one string field constrained min 2, max 4. -/
def schemaStrMin2Max4 : List (String × Pat) :=
  [("f", Pat.obj [("type", Pat.str), ("min", Pat.lit (.vnum 2)), ("max", Pat.lit (.vnum 4))])]

/-- The check argument for schemaStrMin2Max4. -/
def jsStrMin2Max4 : JSchema := ⟨schemaStrMin2Max4, [], false, false⟩

/-- A numeric field with a zero minimum — the bound the source never
enforces, because the qualifier block tests the bounds for JS truthiness
and 0 is falsy. -/
def schemaNumMin0 : List (String × Pat) :=
  [("n", Pat.obj [("type", Pat.num), ("min", Pat.lit (.vnum 0))])]

/-- C6 counterexample: with min 0 on a number field, the value -5 has
count < min (-5 < 0), yet validation succeeds — a min/max violation does
NOT occur exactly when the counted measure is below min, because a zero
(falsy) bound is skipped entirely. -/
theorem claim_C6_counterexample :
    jsLtNum (.vnum (-5)) (.vnum 0) = true
    ∧ check (.vobj [("n", .vnum (-5))]) ⟨schemaNumMin0, [], false, false⟩ false = .success :=
  ⟨rfl, rfl⟩

/-- The qualifier evaluation of the min 2 / max 4 string scenario, fully
characterized over an arbitrary string value. -/
theorem evalQ_min2max4 (s : String) :
    evalQualifiers (.vstr s) .str [("min", .lit (.vnum 2)), ("max", .lit (.vnum 4))] =
      .ok (if 2 ≤ s.length ∧ s.length ≤ 4 then []
           else [if s.length = 0 then "cannot be empty"
                 else "must be at least 2 characters and at most 4 characters"]) := by
  have ht2 : toString (2 : Int) = "2" := rfl
  have ht4 : toString (4 : Int) = "4" := rfl
  by_cases h2 : s.length < 2
  · have hb2 : ((s.length : Int) < 2) := by omega
    have h1 : ¬(2 ≤ s.length ∧ s.length ≤ 4) := by omega
    by_cases h0 : s.length = 0
    · have hb0 : ((s.length : Int) < 1) := by omega
      simp only [evalQualifiers, List.lookup]
      simp [jsLength, pairOf, patToValue, optPatTruthy, patTruthy, jsTruthy, jsLtNum,
        jsGtNum, tyIsStr, isAnObjectT, isAnArrayT, isObjectP, jsToString, intercalateStr,
        bind, Except.bind, pure, Except.pure, ht2, ht4, hb2, h1, h0, hb0]
    · have hb0 : ¬((s.length : Int) < 1) := by omega
      simp only [evalQualifiers, List.lookup]
      simp [jsLength, pairOf, patToValue, optPatTruthy, patTruthy, jsTruthy, jsLtNum,
        jsGtNum, tyIsStr, isAnObjectT, isAnArrayT, isObjectP, jsToString, intercalateStr,
        bind, Except.bind, pure, Except.pure, ht2, ht4, hb2, h1, h0, hb0]
  · have hb2 : ¬((s.length : Int) < 2) := by omega
    by_cases h4 : 4 < s.length
    · have hb4 : ((4 : Int) < s.length) := by omega
      have h1 : ¬(2 ≤ s.length ∧ s.length ≤ 4) := by omega
      have hb0 : ¬((s.length : Int) < 1) := by omega
      have h0 : s.length ≠ 0 := by omega
      simp only [evalQualifiers, List.lookup]
      simp [jsLength, pairOf, patToValue, optPatTruthy, patTruthy, jsTruthy, jsLtNum,
        jsGtNum, tyIsStr, isAnObjectT, isAnArrayT, isObjectP, jsToString, intercalateStr,
        bind, Except.bind, pure, Except.pure, ht2, ht4, hb2, hb4, h1, hb0, h0]
    · have hb4 : ¬((4 : Int) < s.length) := by omega
      have h1 : (2 ≤ s.length ∧ s.length ≤ 4) := by omega
      simp only [evalQualifiers, List.lookup]
      simp [jsLength, pairOf, patToValue, optPatTruthy, patTruthy, jsTruthy, jsLtNum,
        jsGtNum, tyIsStr, isAnObjectT, isAnArrayT, isObjectP, jsToString, intercalateStr,
        bind, Except.bind, pure, Except.pure, ht2, ht4, hb2, hb4, h1]

/-- C6: corrected bound behavior. For the scenario field (string, min 2,
max 4) the qualifier evaluator flags a violation exactly when the length
lies outside the bounds (with the empty value reporting cannot be empty),
and through check the claimed lengths behave as stated: length 1 and
length 5 fail with a single condition entry, lengths 2, 3 and 4 pass. The
general exactly-when reading is corrected by the zero-bound
counterexample: a falsy bound is never enforced. -/
theorem claim_C6 :
    (∀ s : String,
      evalQualifiers (.vstr s) .str [("min", .lit (.vnum 2)), ("max", .lit (.vnum 4))] =
        .ok (if 2 ≤ s.length ∧ s.length ≤ 4 then []
             else [if s.length = 0 then "cannot be empty"
                   else "must be at least 2 characters and at most 4 characters"]))
    ∧ check (.vobj [("f", .vstr "a")]) jsStrMin2Max4 false =
        .validationError [⟨"f", "condition",
          "F must be at least 2 characters and at most 4 characters", none⟩]
    ∧ check (.vobj [("f", .vstr "abcde")]) jsStrMin2Max4 false =
        .validationError [⟨"f", "condition",
          "F must be at least 2 characters and at most 4 characters", none⟩]
    ∧ check (.vobj [("f", .vstr "ab")]) jsStrMin2Max4 false = .success
    ∧ check (.vobj [("f", .vstr "abc")]) jsStrMin2Max4 false = .success
    ∧ check (.vobj [("f", .vstr "abcd")]) jsStrMin2Max4 false = .success :=
  ⟨evalQ_min2max4, rfl, rfl, rfl, rfl, rfl⟩

-- C5 -----------------------------------------------------------------------

/-- A two-parameter where predicate with a fixed call outcome r: since the
evaluator passes a predicate exactly one value and one qualifier object
here, quantifying over the outcome covers every predicate behavior at that
call site. -/
def constWhere2 (r : Except String Value) : WhereFn := ⟨2, [], fun _ _ => r⟩

/-- A single-parameter (dependency-style) where predicate with a fixed
call outcome r. -/
def constWhere1 (r : Except String Value) : WhereFn := ⟨1, ["a"], fun _ _ => r⟩

/-- The where predicate of the C5 counterexample: always raises the bare
string Expected. -/
def whereRaisesExpected : WhereFn := ⟨2, [], fun _ _ => .error "Expected"⟩

/-- The counterexample schema: a string field whose where always raises a
message containing the word Expected. -/
def schemaWhereExpected : List (String × Pat) :=
  [("f", Pat.obj [("type", Pat.str), ("where", Pat.fn whereRaisesExpected)])]

/-- C5 counterexample: the raised error Expected is NOT reported as a
condition-type failure — the catch block classifies any message containing
Expected as a type failure, so the entry has type "type" (and its message
is mangled by the Expected-regex machinery into "F Expected"). -/
theorem claim_C5_counterexample :
    check (.vobj [("f", .vstr "x")]) ⟨schemaWhereExpected, [], false, false⟩ false =
      .validationError [⟨"f", "type", "F Expected", none⟩] := rfl

/-- C5: corrected where semantics — at both evaluation sites the check
fails exactly when the predicate raises. Inline (Constraint Evaluator): a
predicate call that returns (any value, falsy included) validates, and a
raised error yields the single entry the catch block builds from the
doubly prefixed w-message (whose type is "condition" only when the raised
text avoids the Missing key / Expected markers, per the counterexample).
Rule engine (enforce): a returning predicate records nothing, a raising
predicate records a path-keyed w-message entry (which the catch block of
check then turns into a TypeError crash, not a condition failure). -/
theorem claim_C5 :
    (∀ (r : Except String Value) (s : String),
      check (.vobj [("f", .vstr s)])
          ⟨[("f", Pat.obj [("type", Pat.str), ("where", Pat.fn (constWhere2 r))])], [],
            false, false⟩ false =
        (match r with
         | .ok _ => .success
         | .error m => .validationError
             [catchToVErr "f" ("Match error: " ++ ("Match error: " ++ ("w: " ++ m)) ++ " in field f")]))
    ∧ (∀ (r : Except String Value),
        enforce (.vobj [("b", .vnum 5)]) [⟨["b"], constWhere1 r, ["a"]⟩] =
          (match r with
           | .ok _ => none
           | .error m => some [("b", "w: " ++ m)])) := by
  constructor
  · intro r s
    rcases r with m | v
    · rfl
    · rfl
  · intro r
    rcases r with m | v
    · rfl
    · rfl

-- C4 -----------------------------------------------------------------------

/-- Is a shaped field a constrained node (a Where closure, possibly
Optional-wrapped). -/
def isConstrainedNode : Pat → Bool
  | .whereC _ _ => true
  | .maybe (.whereC _ _) => true
  | _ => false

/-- C4 counterexample: a mapping with a type key and NO other keys has all
its (zero) non-type keys in the allowed set, yet the Shaper does not
produce a constrained node — it emits the bare type itself. -/
theorem claim_C4_counterexample :
    (shape [("k", Pat.obj [("type", Pat.str)])]).fields = [("k", Pat.str)]
    ∧ isConstrainedNode Pat.str = false :=
  ⟨rfl, rfl⟩

theorem filter_key_ne_of_lookup_none (conds : List (String × Pat)) (key : String)
    (h : conds.lookup key = none) : conds.filter (fun kv => kv.1 != key) = conds := by
  induction conds with
  | nil => rfl
  | cons kv rest ih =>
      by_cases hk : kv.1 = key
      · rw [List.lookup] at h
        rw [hk] at h
        simp at h
      · rw [List.lookup] at h
        have hbeq : (key == kv.1) = false := by
          simp [Ne.symm hk]
        rw [hbeq] at h
        have hkeep : (kv.1 != key) = true := by simp [hk]
        simp [List.filter, hkeep, ih h]

theorem filter_tw_of_lookup_none (conds : List (String × Pat))
    (h : conds.lookup "type" = none) :
    conds.filter (fun kv => kv.1 != "type" && kv.1 != "where") =
      conds.filter (fun kv => kv.1 != "where") := by
  induction conds with
  | nil => rfl
  | cons kv rest ih =>
      by_cases hk : kv.1 = "type"
      · rw [List.lookup] at h
        rw [hk] at h
        simp at h
      · rw [List.lookup] at h
        have hbeq : ("type" == kv.1) = false := by simp [Ne.symm hk]
        rw [hbeq] at h
        have hkeep : (kv.1 != "type") = true := by simp [hk]
        simp [List.filter, hkeep, ih h]

theorem any_disallowed_of_filter (conds : List (String × Pat))
    (hany : conds.any (fun kv => !allowed.contains kv.1) = true) :
    (conds.filter (fun kv => kv.1 != "where")).any (fun kv => !allowed.contains kv.1) = true := by
  rcases List.any_eq_true.mp hany with ⟨x, hx, hdis⟩
  refine List.any_eq_true.mpr ⟨x, List.mem_filter.mpr ⟨hx, ?_⟩, hdis⟩
  have hxw : x.1 ≠ "where" := by
    intro he
    rw [he] at hdis
    simp [allowed] at hdis
  simp [hxw]

theorem filter_type_cons (t : Pat) (conds : List (String × Pat)) :
    ((("type", t) :: conds).filter (fun kv => kv.1 != "type")) =
      conds.filter (fun kv => kv.1 != "type") := rfl

theorem filter_tw_cons (t : Pat) (conds : List (String × Pat)) :
    ((("type", t) :: conds).filter (fun kv => kv.1 != "type" && kv.1 != "where")) =
      conds.filter (fun kv => kv.1 != "type" && kv.1 != "where") := rfl

/-- C4: corrected constrained-field dispatch of the Shaper (with the
parallel classification of the Compiler). For a mapping carrying a type
key and further condition keys: any condition key outside the allowed set
makes both treat the whole mapping as an ordinary nested object; with a
NONEMPTY all-allowed condition set the Shaper builds a constrained Where
node (Optional-wrapped when the type is Optional, and with the where
condition deferred to the rule engine when it is a single-parameter
dependency predicate); with an EMPTY condition set — the corrected case —
the mapping becomes the bare type, not a constrained node. -/
theorem claim_C4 (k : String) (t : Pat) (conds : List (String × Pat)) (path : List String)
    (h : conds.lookup "type" = none) :
    ((conds.any (fun kv => !allowed.contains kv.1) = true →
        (sculptField false k (.obj (("type", t) :: conds)) path false).1 =
          .obj (sculpt false (("type", t) :: conds) path false false).1
        ∧ cjsField (.obj (("type", t) :: conds))
            = (cjsObject (("type", t) :: conds)).map (fun o => (o, false)))
    ∧ (conds.any (fun kv => !allowed.contains kv.1) = false → conds ≠ [] →
        (sculptField false k (.obj (("type", t) :: conds)) path false).1 =
          (let final := if (depsOf (conds.lookup "where") k).isEmpty then conds
                        else conds.filter (fun kv => kv.1 != "where")
           match t with
           | .maybe tV => .maybe (.whereC tV final)
           | t2 => .whereC t2 final))
    ∧ (conds = [] →
        (sculptField false k (.obj (("type", t) :: conds)) path false).1 = t)) := by
  have hfil := filter_key_ne_of_lookup_none conds "type" h
  refine ⟨?_, ?_, ?_⟩
  · intro hany
    constructor
    · simp only [sculptField, patFields, filter_type_cons]
      rw [hfil, hany]
      simp [isObjectP, hasTypeKey, patFields, List.lookup]
    · have hany2 := any_disallowed_of_filter conds hany
      simp only [cjsField, patFields, filter_tw_cons]
      rw [filter_tw_of_lookup_none conds h, hany2]
      rcases ho : cjsObject (("type", t) :: conds) with e | o <;>
        simp [isObjectP, hasTypeKey, patFields, List.lookup, ho, Except.map]
  · intro hany hne
    have hie : conds.isEmpty = false := by
      cases conds
      · exact absurd rfl hne
      · rfl
    simp only [sculptField, patFields, filter_type_cons]
    rw [hfil, hany]
    simp only [isObjectP, hasTypeKey, patFields, List.lookup, hie, Bool.false_eq_true,
      if_false]
    rcases t with _ | _ | _ | _ | _ | _ | _ | _ | _ | v | r | w | tV | ps | ps | fs | ⟨ty, conds2⟩ <;>
      first
      | rfl
      | simp [depsOf]
  · intro hnil
    subst hnil
    simp only [sculptField]
    simp [isObjectP, hasTypeKey, patFields, List.lookup, List.filter, depsOf]

/-- C4 witness: at the concrete constrained mapping type String, min 2 the
dispatch takes the constrained branch and produces the Where node. -/
theorem claim_C4_witness :
    ([(("min" : String), Pat.lit (.vnum 2))].lookup "type" = none)
    ∧ (sculptField false "k" (.obj [("type", Pat.str), ("min", Pat.lit (.vnum 2))]) [] false).1 =
        .whereC Pat.str [("min", Pat.lit (.vnum 2))] := by
  refine ⟨rfl, ?_⟩
  have h := (claim_C4 "k" Pat.str [("min", Pat.lit (.vnum 2))] [] rfl).2.1 (by rfl)
    (by simp)
  simpa using h

-- C10 ----------------------------------------------------------------------

theorem mem_keys_of_lookup {β : Type} :
    ∀ (l : List (String × β)) (k1 : String) (b : β),
      l.lookup k1 = some b → k1 ∈ l.map Prod.fst := by
  intro l
  induction l with
  | nil => intro k1 b h; simp [List.lookup] at h
  | cons a rest ih =>
      intro k1 b h
      simp only [List.lookup] at h
      by_cases hk : k1 = a.1
      · simp [hk]
      · have hbeq : (k1 == a.1) = false := by simp [hk]
        rw [hbeq] at h
        simp only [List.map_cons, List.mem_cons]
        exact Or.inr (ih k1 b h)

theorem lookup_of_mem_keys {β : Type} :
    ∀ (l : List (String × β)) (k1 : String),
      k1 ∈ l.map Prod.fst → ∃ b, l.lookup k1 = some b := by
  intro l
  induction l with
  | nil => intro k1 h; simp at h
  | cons a rest ih =>
      intro k1 h
      by_cases hk : k1 = a.1
      · exact ⟨a.2, by simp [List.lookup, hk]⟩
      · have h1 : k1 ∈ rest.map Prod.fst := by
          simp only [List.map_cons, List.mem_cons] at h
          rcases h with h2 | h2
          · exact absurd h2 hk
          · exact h2
        rcases ih k1 h1 with ⟨b, hb⟩
        have hbeq : (k1 == a.1) = false := by simp [hk]
        exact ⟨b, by simp [List.lookup, hbeq, hb]⟩

theorem keys_filter_id (fields : List (String × Pat)) :
    "_id" ∉ (fields.filter (fun kv => kv.1 != "_id")).map Prod.fst := by
  intro hmem
  rcases List.mem_map.mp hmem with ⟨kv, hkv, hfst⟩
  have h2 := (List.mem_filter.mp hkv).2
  rw [hfst] at h2
  simp at h2

/-- An object pattern rejects (or crashes on) any data object carrying a
key the pattern does not declare; it never reports a clean pass. -/
theorem testObjData_unknown (k : String) :
    ∀ (dfs : List (String × Value)) (pfs : List (String × Pat)) (allKeys : List String),
      k ∈ dfs.map Prod.fst → k ∉ pfs.map Prod.fst →
      testObjData dfs pfs allKeys ≠ .ok none := by
  intro dfs
  induction dfs with
  | nil => intro pfs allKeys hk _; simp at hk
  | cons kv rest ih =>
      intro pfs allKeys hk hnp
      rcases kv with ⟨kd, vd⟩
      simp only [testObjData]
      rcases hl : pfs.lookup kd with _ | sp
      · simp [hl]
      · simp only [hl]
        rcases ht : testSubtree vd sp with e | o
        · simp [ht]
        · rcases o with _ | err
          · simp only [ht]
            have hkr : k ∈ rest.map Prod.fst := by
              simp only [List.map_cons, List.mem_cons] at hk
              rcases hk with h1 | h1
              · exact absurd (h1 ▸ mem_keys_of_lookup pfs kd sp hl) hnp
              · exact h1
            exact ih pfs allKeys hkr hnp
          · simp [ht]

/-- C10: with full set, check removes the _id field from the shaped schema
entirely: checking against a shaped schema equals checking against the
same schema with _id deleted (so missing _id is never reported), while any
data object that does carry an _id key can never pass. -/
theorem claim_C10 (fields : List (String × Pat)) (dfs : List (String × Value))
    (hop : hasOperators (.vobj dfs) = false) :
    (("_id" ∈ dfs.map Prod.fst) →
        check (.vobj dfs) ⟨fields, [], true, false⟩ true ≠ .success)
    ∧ (check (.vobj dfs) ⟨fields, [], true, false⟩ true =
        check (.vobj dfs) ⟨fields.filter (fun kv => kv.1 != "_id"), [], true, false⟩ true) := by
  constructor
  · intro hid hsucc
    simp only [check, hop] at hsucc
    simp only [Bool.false_eq_true, if_false, Bool.false_or, Bool.or_true, if_true,
      Bool.true_or, Bool.or_false] at hsucc
    rcases ht : testSubtree (.vobj dfs)
        (.obj (fields.filter (fun kv => kv.1 != "_id"))) with e | o
    · rw [ht] at hsucc
      simp at hsucc
    · rcases o with _ | err
      · have : testObjData dfs (fields.filter (fun kv => kv.1 != "_id"))
            (dfs.map Prod.fst) ≠ .ok none :=
          testObjData_unknown "_id" dfs _ _ hid (keys_filter_id fields)
        exact this (by simpa [testSubtree] using ht)
      · rw [ht] at hsucc
        simp at hsucc
  · simp only [check, hop]
    simp [List.filter_filter]

/-- C10 witness: concrete full-insert check — a document carrying _id is
rejected against a shaped schema that declares _id. -/
theorem claim_C10_witness :
    hasOperators (.vobj [("_id", Value.vstr "i")]) = false
    ∧ check (.vobj [("_id", Value.vstr "i")])
        ⟨[("_id", Pat.str), ("x", Pat.num)], [], true, false⟩ true ≠ .success :=
  ⟨rfl, (claim_C10 [("_id", Pat.str), ("x", Pat.num)] [("_id", Value.vstr "i")] rfl).1
    (by simp)⟩

-- C9 -----------------------------------------------------------------------

/-- Every field deepPartialify produces is Optional-wrapped. -/
theorem dpField_maybe (k : String) (v : Pat) (path : List String) :
    isMaybeP (dpField k v path).1 = true := by
  rcases v with _ | _ | _ | _ | _ | _ | _ | _ | _ | lv | r | w | inner | ps | ps | fs | ⟨ty, conds2⟩
  case lit =>
    rcases lv with _ | _ | b | n | st | es | fs2 | _ <;>
      (simp only [dpField]
       repeat' split) <;>
      simp [isMaybeP]
  all_goals
    first
    | ((simp only [dpField]
        repeat' split) <;>
       simp [isMaybeP])

/-- Every top-level field of the deep-partial sculpt is Optional-wrapped. -/
theorem dpSculpt_all_maybe :
    ∀ (entries : List (String × Pat)) (path : List String) (skip : Bool),
      ∀ kv ∈ (dpSculpt entries path skip).1, isMaybeP kv.2 = true := by
  intro entries
  induction entries with
  | nil => intro path skip kv hkv; simp [dpSculpt] at hkv
  | cons e rest ih =>
      intro path skip kv hkv
      rcases e with ⟨k, v⟩
      simp only [dpSculpt] at hkv
      rcases List.mem_cons.mp hkv with h1 | h1
      · rw [h1]
        exact dpField_maybe k v _
      · exact ih path skip kv h1

/-- findMissing reports nothing when every pattern field is optional. -/
theorem findMissing_none (pfs : List (String × Pat)) (ks : List String)
    (h : ∀ kv ∈ pfs, isMaybeP kv.2 = true) : findMissing pfs ks = none := by
  have hf : pfs.find? (fun kv => !isMaybeP kv.2 && !ks.contains kv.1) = none := by
    rw [List.find?_eq_none]
    intro x hx
    simp [h x hx]
  simp only [findMissing, hf]

/-- Against an all-optional object pattern that declares every data key,
the object test passes exactly when each data entry passes its own
declared sub-pattern. -/
theorem testObjData_all_maybe_iff (pfs : List (String × Pat)) (allKeys : List String)
    (hmay : ∀ kv ∈ pfs, isMaybeP kv.2 = true) :
    ∀ (dfs : List (String × Value)),
      (∀ k, k ∈ dfs.map Prod.fst → k ∈ pfs.map Prod.fst) →
      (testObjData dfs pfs allKeys = .ok none ↔
        ∀ kv ∈ dfs, ∃ p, pfs.lookup kv.1 = some p ∧ testSubtree kv.2 p = .ok none) := by
  intro dfs
  induction dfs with
  | nil =>
      intro _
      simp [testObjData, findMissing_none pfs allKeys hmay]
  | cons kv rest ih =>
      intro hsub
      rcases kv with ⟨kd, vd⟩
      have hmem : kd ∈ pfs.map Prod.fst := hsub kd (by simp)
      rcases lookup_of_mem_keys pfs kd hmem with ⟨p, hp⟩
      have hrest : ∀ k, k ∈ rest.map Prod.fst → k ∈ pfs.map Prod.fst := by
        intro k hk
        exact hsub k (by simp [hk])
      simp only [testObjData, hp]
      rcases ht : testSubtree vd p with e | o
      · constructor
        · intro hcon
          simp at hcon
        · intro hall
          rcases hall (kd, vd) (by simp) with ⟨p2, hp2, ht2⟩
          have ht2x : testSubtree vd p2 = .ok none := ht2
          rw [hp] at hp2
          injection hp2 with hq
          subst hq
          rw [ht] at ht2x
          simp at ht2x
      · rcases o with _ | err
        · rw [ih hrest]
          constructor
          · intro hall kv2 hkv2
            rcases List.mem_cons.mp hkv2 with h1 | h1
            · rw [h1]
              exact ⟨p, hp, ht⟩
            · exact hall kv2 h1
          · intro hall kv2 hkv2
            exact hall kv2 (by simp [hkv2])
        · constructor
          · intro hcon
            simp at hcon
          · intro hall
            rcases hall (kd, vd) (by simp) with ⟨p2, hp2, ht2⟩
            have ht2x : testSubtree vd p2 = .ok none := ht2
            rw [hp] at hp2
            injection hp2 with hq
            subst hq
            rw [ht] at ht2x
            simp at ht2x

/-- The single-parameter dependency where of the deep-partial
counterexample: raises whenever the destructured sibling a is missing. -/
def whereNeedsA : WhereFn :=
  ⟨1, ["a"], fun d _ => if isNullish (d.get "a") then .error "need a" else .ok .vundef⟩

/-- The counterexample schema: a plain a and a constrained b whose where
depends on a. -/
def schemaDepNeedsA : List (String × Pat) :=
  [("a", Pat.num), ("b", Pat.obj [("type", Pat.num), ("where", Pat.fn whereNeedsA)])]

/-- C9 counterexample: under the deep-partial variant of the dependency
schema, the subset document b: 5 satisfies the declared sub-pattern of its
only present field, yet check does not succeed — the dependency rule fires
enforce, whose thrown error array crashes the catch block. No required
error is involved, but the claimed iff fails. -/
theorem claim_C9_counterexample :
    (deepPartialify schemaDepNeedsA).fields.lookup "b" = some (.maybe (.whereC .num []))
    ∧ testSubtree (.vnum 5) (.maybe (.whereC .num [])) = .ok none
    ∧ check (.vobj [("b", .vnum 5)])
        ⟨(deepPartialify schemaDepNeedsA).fields, (deepPartialify schemaDepNeedsA).rules,
          true, false⟩ false =
        .crash "TypeError: Cannot read properties of undefined (reading includes)" :=
  ⟨rfl, rfl, rfl⟩

/-- C9: corrected round-trip partiality — for a RULE-FREE deep-partial
schema (no single-parameter dependency where predicates, as the
counterexample requires), checking a data object whose keys all come from
the schema succeeds exactly when each present field individually satisfies
its declared deep-partial sub-pattern; absent fields never matter since
every deep-partial field is Optional-wrapped. -/
theorem claim_C9 (S : List (String × Pat)) (sub : List (String × Value))
    (hrules : (deepPartialify S).rules = [])
    (hop : hasOperators (.vobj sub) = false)
    (hsub : ∀ k, k ∈ sub.map Prod.fst → k ∈ (deepPartialify S).fields.map Prod.fst) :
    check (.vobj sub)
        ⟨(deepPartialify S).fields, (deepPartialify S).rules, true, false⟩ false = .success
      ↔ ∀ kv ∈ sub, ∃ p, (deepPartialify S).fields.lookup kv.1 = some p ∧
          testSubtree kv.2 p = .ok none := by
  have hmay : ∀ kv ∈ (deepPartialify S).fields, isMaybeP kv.2 = true := by
    intro kv hkv
    exact dpSculpt_all_maybe S [] false kv hkv
  have hiff := testObjData_all_maybe_iff (deepPartialify S).fields (sub.map Prod.fst)
    hmay sub hsub
  simp only [check, hop, hrules]
  simp only [Bool.false_eq_true, if_false, Bool.false_or, Bool.or_true, Bool.true_or,
    Bool.or_false, if_true, Bool.and_true, Bool.not_false, List.isEmpty_nil]
  rw [← hiff]
  have hts : testSubtree (.vobj sub) (.obj ((deepPartialify S).fields)) =
      testObjData sub (deepPartialify S).fields (sub.map Prod.fst) := by
    simp [testSubtree]
  rw [hts]
  rcases htd : testObjData sub (deepPartialify S).fields (sub.map Prod.fst) with e | o
  · simp
  · rcases o with _ | err <;> simp

/-- C9 witness: the rule-free singleton schema x: Number accepts the
subset document x: 1 through the deep-partial check. -/
theorem claim_C9_witness :
    check (.vobj [("x", Value.vnum 1)])
        ⟨(deepPartialify [("x", Pat.num)]).fields, (deepPartialify [("x", Pat.num)]).rules,
          true, false⟩ false = .success := by
  refine (claim_C9 [("x", Pat.num)] [("x", Value.vnum 1)] rfl rfl ?_).mpr ?_
  · intro k hk
    simp at hk
    subst hk
    decide
  · intro kv hkv
    simp at hkv
    subst hkv
    exact ⟨Pat.maybe Pat.num, rfl, rfl⟩

-- C1 -----------------------------------------------------------------------

theorem any_dis_filter_where_eq (conds : List (String × Pat)) :
    ((conds.filter (fun kv => kv.1 != "where")).any fun kv => !allowed.contains kv.1)
      = (conds.any fun kv => !allowed.contains kv.1) := by
  induction conds with
  | nil => rfl
  | cons kv rest ih =>
      by_cases hw : kv.1 = "where"
      · have hdrop : (kv.1 != "where") = false := by simp [hw]
        have hal : (!allowed.contains kv.1) = false := by simp [hw, allowed]
        simp only [List.filter_cons, hdrop, Bool.false_eq_true, if_false, List.any_cons,
          hal, Bool.false_or]
        exact ih
      · have hkeep : (kv.1 != "where") = true := by simp [hw]
        simp only [List.filter_cons, hkeep, if_true, List.any_cons, ih]

theorem filter_and_split (l : List (String × Pat)) :
    l.filter (fun kv => kv.1 != "type" && kv.1 != "where")
      = (l.filter (fun kv => kv.1 != "type")).filter (fun kv => kv.1 != "where") := by
  induction l with
  | nil => rfl
  | cons kv rest ih =>
      by_cases ht : kv.1 = "type"
      · have h1 : (kv.1 != "type") = false := by simp [ht]
        simp [List.filter_cons, h1, ih]
      · have h1 : (kv.1 != "type") = true := by simp [ht]
        by_cases hw : kv.1 = "where"
        · have h2 : (kv.1 != "where") = false := by simp [hw]
          simp [List.filter_cons, h1, h2, ih]
        · have h2 : (kv.1 != "where") = true := by simp [hw]
          simp [List.filter_cons, h1, h2, ih]

set_option maxHeartbeats 4000000 in
/-- Whenever the Compiler succeeds on a field pattern, the optionality bit
it records equals the Shaper rewriting of the field to an Optional-wrapped
pattern — the structural core of the required-iff-non-optional
consistency, conditional on the compilation not raising. -/
theorem cjsOpt_eq (k : String) (path : List String) :
    ∀ (p : Pat) (r : Value × Bool), cjsField p = .ok r →
      r.2 = isMaybeP ((sculptField false k p path false).1) := by
  intro p
  rcases p with _ | _ | _ | _ | _ | _ | _ | _ | _ | lv | rx | w | inner | ps | ps | fs | ⟨ty, conds2⟩
  case maybe =>
    intro r hr
    rcases hin : cjsField inner with e | ri <;>
      simp only [cjsField, hin] at hr
    · exact Except.noConfusion hr
    · rcases hs : sculptField false "pattern" inner path true with ⟨pi, rd⟩
      simp only [Except.ok.injEq] at hr
      subst hr
      simp [sculptField, hs, isMaybeP]
  case oneOf =>
    intro r hr
    rcases hl : cjsList ps with e | l <;>
      simp only [cjsField, hl] at hr
    · exact Except.noConfusion hr
    · rcases hsl : sculptList false ps 0 path true with ⟨qs, rs⟩
      simp only [Except.ok.injEq] at hr
      subst hr
      simp [sculptField, hsl, isMaybeP]
  case obj =>
    intro r hr
    have hff := filter_and_split fs
    simp only [cjsField, patFields] at hr
    rw [hff, any_dis_filter_where_eq] at hr
    simp only [sculptField, patFields]
    by_cases hdisp : (isObjectP (Pat.obj fs) && hasTypeKey (Pat.obj fs)) = true
    · rw [if_pos hdisp] at hr
      rw [if_pos hdisp]
      split at hr
      · rename_i type het
        rw [het]
        by_cases hany : ((fs.filter (fun kv => kv.1 != "type")).any
            fun kv => !allowed.contains kv.1) = true
        · rw [if_pos hany] at hr
          rw [if_pos hany]
          rcases ho : cjsObject fs with e | o <;> rw [ho] at hr
          · exact Except.noConfusion hr
          · rw [← Except.ok.inj hr]
            simp [isMaybeP, isObjectP, isArrayP]
        · rw [if_neg hany] at hr
          rw [if_neg hany]
          by_cases hie : ((fs.filter (fun kv => kv.1 != "type")).isEmpty = true)
          · rw [if_pos hie]
            rcases type with _ | _ | _ | _ | _ | _ | _ | _ | _ | lv2 | r2 | w2 | inner2 | ps2 | ps2 | fs2 | ⟨ty2, conds3⟩ <;>
              (simp only [isMaybeP, Option.getD_some, Bool.false_and, Bool.false_eq_true, eq_self_iff_true, if_false, if_true]
               simp only [isObjectP, isArrayP, Bool.false_eq_true, eq_self_iff_true, if_false, if_true] at hr
               repeat' split at hr
               all_goals first
                 | exact Except.noConfusion hr
                 | (rw [← Except.ok.inj hr]))
          · rw [if_neg hie]
            rcases type with _ | _ | _ | _ | _ | _ | _ | _ | _ | lv2 | r2 | w2 | inner2 | ps2 | ps2 | fs2 | ⟨ty2, conds3⟩ <;>
              (simp only [isMaybeP, Option.getD_some, Bool.false_and, Bool.false_eq_true, eq_self_iff_true, if_false, if_true]
               simp only [isObjectP, isArrayP, Bool.false_eq_true, eq_self_iff_true, if_false, if_true] at hr
               repeat' split at hr
               all_goals first
                 | exact Except.noConfusion hr
                 | (rw [← Except.ok.inj hr]))
      · rename_i het
        rw [hasTypeKey] at hdisp
        simp [patFields, het] at hdisp
    · rw [if_neg hdisp] at hr
      rw [if_neg hdisp]
      simp only [isObjectP, isArrayP, Bool.false_eq_true, eq_self_iff_true, if_false, if_true] at hr
      rcases ho : cjsObject fs with e | o <;> rw [ho] at hr
      · exact Except.noConfusion hr
      · rw [← Except.ok.inj hr]
        simp [isObjectP, isArrayP, isMaybeP]
  case lit =>
    rcases lv with _ | _ | bb | n | st | es | lfs | _
    case vobj =>
      intro r hr
      have hff := filter_and_split (litMapFields lfs)
      simp only [cjsField, patFields] at hr
      rw [hff, any_dis_filter_where_eq] at hr
      simp only [sculptField, patFields]
      by_cases hdisp : (isObjectP (Pat.lit (.vobj lfs)) && hasTypeKey (Pat.lit (.vobj lfs))) = true
      · rw [if_pos hdisp] at hr
        rw [if_pos hdisp]
        split at hr
        · rename_i type het
          rw [het]
          by_cases hany : (((litMapFields lfs).filter (fun kv => kv.1 != "type")).any
              fun kv => !allowed.contains kv.1) = true
          · rw [if_pos hany] at hr
            rw [if_pos hany]
            rcases ho : cjsObject (litMapFields lfs) with e | o <;> rw [ho] at hr
            · exact Except.noConfusion hr
            · rw [← Except.ok.inj hr]
              simp [isMaybeP, isObjectP, isArrayP]
          · rw [if_neg hany] at hr
            rw [if_neg hany]
            by_cases hie : (((litMapFields lfs).filter (fun kv => kv.1 != "type")).isEmpty = true)
            · rw [if_pos hie]
              rcases type with _ | _ | _ | _ | _ | _ | _ | _ | _ | lv2 | r2 | w2 | inner2 | ps2 | ps2 | fs2 | ⟨ty2, conds3⟩ <;>
                (simp only [isMaybeP, Option.getD_some, Bool.false_and, Bool.false_eq_true, eq_self_iff_true, if_false, if_true]
                 simp only [isObjectP, isArrayP, Bool.false_eq_true, eq_self_iff_true, if_false, if_true] at hr
                 repeat' split at hr
                 all_goals first
                   | exact Except.noConfusion hr
                   | (rw [← Except.ok.inj hr]))
            · rw [if_neg hie]
              rcases type with _ | _ | _ | _ | _ | _ | _ | _ | _ | lv2 | r2 | w2 | inner2 | ps2 | ps2 | fs2 | ⟨ty2, conds3⟩ <;>
                (simp only [isMaybeP, Option.getD_some, Bool.false_and, Bool.false_eq_true, eq_self_iff_true, if_false, if_true]
                 simp only [isObjectP, isArrayP, Bool.false_eq_true, eq_self_iff_true, if_false, if_true] at hr
                 repeat' split at hr
                 all_goals first
                   | exact Except.noConfusion hr
                   | (rw [← Except.ok.inj hr]))
        · rename_i het
          rw [hasTypeKey] at hdisp
          simp [patFields, het] at hdisp
      · rw [if_neg hdisp] at hr
        rw [if_neg hdisp]
        simp only [isObjectP, isArrayP, Bool.false_eq_true, eq_self_iff_true, if_false, if_true] at hr
        rcases ho : cjsObject (litMapFields lfs) with e | o <;> rw [ho] at hr
        · exact Except.noConfusion hr
        · rw [← Except.ok.inj hr]
          simp [isObjectP, isArrayP, isMaybeP]
    case varr =>
      intro r hr
      rcases es with _ | ⟨e0, es2⟩
      · exact Except.noConfusion hr
      · have h3 : isMaybeP ((sculptField false k (Pat.lit (Value.varr (e0 :: es2))) path false).1) = false := by
          rcases hsl : sculptList false (List.map Pat.lit (e0 :: es2)) 0 path false with ⟨qs, rs⟩
          simp only [sculptField]
          repeat' split
          all_goals simp_all [isObjectP, isArrayP, hasTypeKey, patFields, isMaybeP]
        rw [h3]
        simp only [cjsField, isObjectP, isArrayP, Bool.false_and, Bool.false_eq_true, eq_self_iff_true, if_false, if_true, patIndex0] at hr
        repeat' split at hr
        all_goals first
          | exact Except.noConfusion hr
          | (rw [← Except.ok.inj hr])
    all_goals
      (intro r hr
       simp only [cjsField, isObjectP, isArrayP, Bool.false_and, Bool.false_eq_true,
         eq_self_iff_true, if_false, if_true] at hr
       repeat' split at hr
       all_goals first
         | exact Except.noConfusion hr
         | (rw [← Except.ok.inj hr]
            try rfl))
  case arr =>
    intro r hr
    rcases ps with _ | ⟨p0, ps2⟩
    · exact Except.noConfusion hr
    · have h3 : isMaybeP ((sculptField false k (Pat.arr (p0 :: ps2)) path false).1) = false := by
        rcases hsl : sculptList false (p0 :: ps2) 0 path false with ⟨qs, rs⟩
        simp only [sculptField]
        repeat' split
        all_goals simp_all [isObjectP, isArrayP, hasTypeKey, patFields, isMaybeP]
      rw [h3]
      simp only [cjsField, isObjectP, isArrayP, Bool.false_and, Bool.false_eq_true, eq_self_iff_true, if_false, if_true, patIndex0] at hr
      repeat' split at hr
      all_goals first
        | exact Except.noConfusion hr
        | (rw [← Except.ok.inj hr])
  case whereC =>
    intro r hr
    simp only [cjsField, isObjectP, isArrayP, Bool.false_and, Bool.false_eq_true, eq_self_iff_true, if_false, if_true,
      tmapOf, patJsName] at hr
    rw [← Except.ok.inj hr]
    have h3 : isMaybeP ((sculptField false k (Pat.whereC ty conds2) path false).1) = false := by
      simp only [sculptField, isObjectP, isArrayP, Bool.false_and, Bool.false_eq_true, eq_self_iff_true, if_false, if_true, isMaybeP]
    rw [h3]
  all_goals
    (intro r hr
     rw [← Except.ok.inj hr]
     rfl)

-- C1 -----------------------------------------------------------------------

/-- Modelled from the spec: the required-key list of a compiled JSON schema
(the strings under its top-level required property). -/
def requiredKeys (js : Value) : List String :=
  match js.get "required" with
  | .varr es => es.filterMap (fun e => match e with | .vstr s => some s | _ => none)
  | _ => []

/-- Modelled from the spec: the coarse type check a bsonType tag of the
compiled structural shape imposes on a runtime value. -/
def tagMatches (tag : String) (v : Value) : Bool :=
  match tag with
  | "string" => (match v with | .vstr _ => true | _ => false)
  | "double" => (match v with | .vnum _ => true | _ => false)
  | "int" => (match v with | .vnum _ => true | _ => false)
  | "bool" => (match v with | .vbool _ => true | _ => false)
  | "object" => (match v with | .vobj _ => true | _ => false)
  | "array" => (match v with | .varr _ => true | _ => false)
  | "date" => (match v with | .vdate => true | _ => false)
  | "null" => (match v with | .vnull => true | _ => false)
  | _ => true

/-- Modelled from the spec: the bsonType tag the compiled schema gives one
property, where it carries one. -/
def propTag (js : Value) (k : String) : Option String :=
  match (js.get "properties").get k with
  | .vobj pfs =>
      match pfs.lookup "bsonType" with
      | some (.vstr tag) => some tag
      | _ => none
  | _ => none

/-- Modelled from the spec: a document satisfies the structural shape
(required-set and top-level type tags) produced by the Compiler. -/
def jsonAccepts (js : Value) (v : Value) : Bool :=
  match v with
  | .vobj dfs =>
      (requiredKeys js).all (fun k => (dfs.map (·.1)).contains k) &&
      dfs.all (fun kv =>
        match propTag js kv.1 with
        | some tag => tagMatches tag kv.2
        | none => true)
  | _ => false

/-- A one-field schema whose only field is an Optional string. -/
def schemaOptionalStr : List (String × Pat) := [("f", Pat.maybe Pat.str)]

/-- A one-field schema whose field is the literal array holding null: the
Validator accepts its data, while the Compiler raises destructuring the
type key of the null first element. -/
def schemaArrNull : List (String × Pat) := [("f", Pat.lit (Value.varr [Value.vnull]))]

/-- The compiled required list of a one-field schema whose field
compiles: empty when the compiler marks the field optional, and the
singleton key otherwise. -/
theorem requiredKeys_single (k : String) (p : Pat) (cv : Value) (b : Bool)
    (hf : cjsField p = .ok (cv, b)) :
    (createJSONSchema [(k, p)]).map requiredKeys = .ok (if b then [] else [k]) := by
  cases b <;>
    simp [createJSONSchema, cjsObject, cjsFields, hf, requiredKeys, Value.get,
      List.lookup, Except.map]

/-- The shaped fields of a one-field schema. -/
theorem shape_single (k : String) (p : Pat) :
    (shape [(k, p)]).fields = [(k, (sculptField false k p [k] false).1)] := by
  rcases hs : sculptField false k p [k] false with ⟨pv, rv⟩
  simp [shape, sculpt, hs]

/-- Validating the empty document against a one-field shaped schema
succeeds exactly when the shaped field is Optional; otherwise it reports
the missing key. -/
theorem testEmpty_single (k : String) (q : Pat) :
    testSubtree (.vobj []) (.obj [(k, q)]) =
    (if isMaybeP q then .ok none
     else .ok (some ⟨"Missing key " ++ sq ++ k ++ sq, ""⟩)) := by
  by_cases hm : isMaybeP q
  · simp [testSubtree, testObjData, findMissing, List.find?, hm]
  · simp [testSubtree, testObjData, findMissing, List.find?, hm]

/-- C1 counterexample: the Compiler does not accept every schema the
Shaper/Validator accept, and a value the Validator accepts need not
satisfy the compiled shape. For the schema whose field holds the literal
array [null], the Validator accepts the matching document while
createJSONSchema raises a TypeError destructuring the type key of the
null first element; and for the Optional-string schema, the Validator
accepts a null field value that the compiled bare string type tag
rejects. -/
theorem claim_C1_counterexample :
    testSubtree (.vobj [("f", .varr [.vnull])]) (.obj (shape schemaArrNull).fields) = .ok none
    ∧ createJSONSchema schemaArrNull =
        .error "TypeError: Cannot destructure property type of firstValue as it is null."
    ∧ testSubtree (.vobj [("f", .vnull)]) (.obj (shape schemaOptionalStr).fields) = .ok none
    ∧ (createJSONSchema schemaOptionalStr).map
        (fun js => jsonAccepts js (.vobj [("f", .vnull)])) = .ok false :=
  ⟨rfl, rfl, rfl, rfl⟩

/-- C1 (corrected): the required-marking consistency between the Compiler
and the Shaper/Validator holds whenever the compilation succeeds — for a
one-field schema that compiles, the key is listed in required exactly
when the Validator rejects the empty document for missing it (the
compiler optionality bit agrees with the Shaper Optional wrapper on every
successfully compiled pattern, theorem cjsOpt_eq). The original claim
fails in both remaining respects: the Compiler raises a TypeError on
array-valued fields whose first element is null or undefined although the
Shaper/Validator accept them, and the compiled type tags can reject a
value the Validator accepts (see the counterexample). -/
theorem claim_C1 (k : String) (p : Pat) (js : Value)
    (hjs : createJSONSchema [(k, p)] = .ok js) :
    k ∈ requiredKeys js ↔
    testSubtree (.vobj []) (.obj (shape [(k, p)]).fields) ≠ .ok none := by
  rcases hf : cjsField p with e | ⟨cv, b⟩
  · exfalso
    simp [createJSONSchema, cjsObject, cjsFields, hf] at hjs
  · have hreq := requiredKeys_single k p cv b hf
    rw [hjs] at hreq
    simp only [Except.map] at hreq
    have hreq2 : requiredKeys js = if b then [] else [k] := Except.ok.inj hreq
    have hopt : b = isMaybeP ((sculptField false k p [k] false).1) :=
      cjsOpt_eq k [k] p (cv, b) hf
    rw [shape_single, testEmpty_single, hreq2, hopt]
    by_cases hm : isMaybeP ((sculptField false k p [k] false).1)
    · simp [hm]
    · simp [hm]

/-- The compiled JSON schema of the one-field schema with a plain String
field. -/
def jsStrCompiled : Value :=
  .vobj [("bsonType", .vstr "object"),
    ("properties", .vobj [("f", .vobj [("bsonType", .vstr "string")])]),
    ("required", .varr [.vstr "f"]),
    ("additionalProperties", .vbool false)]

/-- C1 witness: on the concrete one-field schema with a plain String
field the compilation succeeds with the compiled object above, the key is
listed required, and the Validator rejects the empty document. -/
theorem claim_C1_witness :
    ("f" ∈ requiredKeys jsStrCompiled ↔
      testSubtree (.vobj []) (.obj (shape [("f", Pat.str)]).fields) ≠ .ok none) :=
  claim_C1 "f" Pat.str jsStrCompiled rfl

end EasySchema
